import Mathlib

/-! # zai2api: the streaming protocol translator of `main.go`

A shallow embedding of the content transformer (`ContentProcessor.ProcessContent`,
`ContentProcessor.ExtractContent`) and of the two response emitters
(`handleStreamResponseWithIDs`, `handleNonStreamResponseWithIDs`).

Conventions of the embedding:

* Go strings that reach the transformer come out of `json.Unmarshal`, hence are valid
  UTF-8; they are modelled by Lean `String`s and processed as lists of code points.
  Every pattern and literal of the source is ASCII, so byte-level and code-point-level
  operations coincide.
* The regular expressions of the source are written as lists of atoms and run by a
  backtracking matcher that explores alternatives in the priority order of the
  pattern; the first match it finds, at the leftmost start, is the match Go's
  `regexp` package returns.
* `THINK_TAGS_MODE` is a process-wide configuration string; it is a parameter here.
* `json.Unmarshal` is a parameter `decode` of the two response loops.
* Chunk identifiers, timestamps and the model name are not modelled: a frame is the
  `delta`/`finish_reason` of its single choice, or the `[DONE]` sentinel.
-/

namespace Zai2Api

/-! ## Go library: `strings` and `unicode` -/

/-- Go `strings.HasPrefix` on code-point lists. -/
def hasPrefix : List Char → List Char → Bool
  | _, [] => true
  | [], _ :: _ => false
  | c :: cs, p :: ps => c == p && hasPrefix cs ps

/-- Go `strings.TrimPrefix`: drop `p` from the front of `s` when it is there. -/
def trimPrefix (s p : List Char) : List Char :=
  if hasPrefix s p then s.drop p.length else s

/-- Go `strings.Contains`. -/
def containsSub : List Char → List Char → Bool
  | [], p => hasPrefix [] p
  | c :: cs, p => hasPrefix (c :: cs) p || containsSub cs p

/-- Worker of `replaceAll`: `skip` counts the characters of the current occurrence
that are still to be dropped. -/
def replaceAllAux (old new : List Char) : Nat → List Char → List Char
  | _, [] => []
  | skip + 1, _ :: cs => replaceAllAux old new skip cs
  | 0, c :: cs =>
    if hasPrefix (c :: cs) old then new ++ replaceAllAux old new (old.length - 1) cs
    else c :: replaceAllAux old new 0 cs

/-- Go `strings.ReplaceAll` for a non-empty `old`: non-overlapping occurrences, left to
right. (With an empty `old` Go inserts `new` between code points; the source never
does that, and the model then returns `s` unchanged.) -/
def replaceAll (s old new : List Char) : List Char :=
  if old.isEmpty then s else replaceAllAux old new 0 s

/-- Go `unicode.IsSpace`: the code points with the `White_Space` property. -/
def isSpace (c : Char) : Bool :=
  let n := c.toNat
  (0x09 ≤ n && n ≤ 0x0D) || n == 0x20 || n == 0x85 || n == 0xA0 || n == 0x1680 ||
    (0x2000 ≤ n && n ≤ 0x200A) || n == 0x2028 || n == 0x2029 || n == 0x202F ||
    n == 0x205F || n == 0x3000

/-- Go `strings.TrimSpace`: drop leading and trailing white space. -/
def trimSpace (s : List Char) : List Char :=
  ((s.dropWhile isSpace).reverse.dropWhile isSpace).reverse

/-- Go `strings.TrimLeft(s, "\n")`: drop leading line feeds. -/
def trimLeftNewlines (s : List Char) : List Char :=
  s.dropWhile (fun c => c == '\n')

/-! ## Go library: `regexp`, for the patterns of the source -/

/-- The pieces of syntax the patterns of `main.go` are made of. -/
inductive Atom where
  /-- A literal run of characters. -/
  | lit (s : List Char)
  /-- The greedy optional character `c?`. -/
  | opt (c : Char)
  /-- One character of a class. -/
  | cls (p : Char → Bool)
  /-- The greedy repetition `[p]*`. -/
  | star (p : Char → Bool)
  /-- The lazy repetition `[p]*?`. -/
  | lazy (p : Char → Bool)
  /-- `^` without the `m` flag: beginning of text. -/
  | bot
  /-- `$` without the `m` flag: end of text. -/
  | eot

/-- A continuation of the matcher: from the offset and the rest of the text, the text
consumed by each remaining atom. -/
abbrev Cont := Nat → List Char → Option (List (List Char))

/-- Greedy `[p]*` followed by `k`: take as many characters as possible, give back one
at a time while `k` fails. -/
def starGreedy (p : Char → Bool) (k : Cont) : Nat → List Char → Option (List (List Char))
  | pos, [] => (k pos []).map (fun ps => [] :: ps)
  | pos, c :: cs =>
    if p c then
      match starGreedy p k (pos + 1) cs with
      | some (w :: ps) => some ((c :: w) :: ps)
      | _ => (k pos (c :: cs)).map (fun ps => [] :: ps)
    else (k pos (c :: cs)).map (fun ps => [] :: ps)

/-- Lazy `[p]*?` followed by `k`: take as few characters as possible, one more each
time `k` fails. -/
def starLazy (p : Char → Bool) (k : Cont) : Nat → List Char → Option (List (List Char))
  | pos, [] => (k pos []).map (fun ps => [] :: ps)
  | pos, c :: cs =>
    match k pos (c :: cs) with
    | some ps => some ([] :: ps)
    | none =>
      if p c then
        match starLazy p k (pos + 1) cs with
        | some (w :: ps) => some ((c :: w) :: ps)
        | _ => none
      else none

/-- One atom followed by the continuation `k`. -/
def matchAtom (a : Atom) (k : Cont) : Cont := fun pos s =>
  match a with
  | .lit l => if hasPrefix s l then (k (pos + l.length) (s.drop l.length)).map (fun ps => l :: ps) else none
  | .opt c =>
    match s with
    | x :: xs =>
      if x == c then
        match k (pos + 1) xs with
        | some ps => some ([c] :: ps)
        | none => (k pos s).map (fun ps => [] :: ps)
      else (k pos s).map (fun ps => [] :: ps)
    | [] => (k pos s).map (fun ps => [] :: ps)
  | .cls p =>
    match s with
    | x :: xs => if p x then (k (pos + 1) xs).map (fun ps => [x] :: ps) else none
    | [] => none
  | .star p => starGreedy p k pos s
  | .lazy p => starLazy p k pos s
  | .bot => if pos = 0 then (k pos s).map (fun ps => [] :: ps) else none
  | .eot => if s.isEmpty then (k pos s).map (fun ps => [] :: ps) else none

/-- The match of a whole pattern at the current offset, if any: the text consumed by
each atom, in the order of the atoms. -/
def matchHere (re : List Atom) : Cont :=
  re.foldr matchAtom (fun _ _ => some [])

/-- The leftmost match at or after the current offset: the text skipped before it and
the text consumed by each atom. -/
def search (re : List Atom) : Nat → List Char → Option (List Char × List (List Char))
  | pos, [] => (matchHere re pos []).map (fun ps => ([], ps))
  | pos, c :: cs =>
    match matchHere re pos (c :: cs) with
    | some ps => some ([], ps)
    | none => (search re (pos + 1) cs).map (fun r => (c :: r.1, r.2))

/-- Worker of `reReplaceAll`; `skip` counts the characters of the current match that
are still to be dropped. -/
def reReplaceAux (re : List Atom) (repl : List Char) : Nat → Nat → List Char → List Char
  | _, _, [] => []
  | pos, skip + 1, _ :: cs => reReplaceAux re repl (pos + 1) skip cs
  | pos, 0, c :: cs =>
    match matchHere re pos (c :: cs) with
    | some ps =>
      if ps.flatten.isEmpty then c :: reReplaceAux re repl (pos + 1) 0 cs
      else repl ++ reReplaceAux re repl (pos + 1) (ps.flatten.length - 1) cs
    | none => c :: reReplaceAux re repl (pos + 1) 0 cs

/-- Go `Regexp.ReplaceAllString` for a pattern that matches no empty string and a
replacement without `$`: every non-overlapping match, left to right, is replaced. All
patterns of the source contain a literal, and none of its replacements has a `$`. -/
def reReplaceAll (re : List Atom) (s repl : List Char) : List Char :=
  reReplaceAux re repl 0 0 s

/-- Go `Regexp.FindString`: the text of the leftmost match (`""` when there is none). -/
def reFindString (re : List Atom) (s : List Char) : List Char :=
  match search re 0 s with
  | some r => r.2.flatten
  | none => []

/-- Any character: `.` under the `s` flag. -/
def anyChar : Char → Bool := fun _ => true

/-- Any character but a line feed: `.` without the `s` flag. -/
def notNewline : Char → Bool := fun c => c != '\n'

/-- The class `[^>]`. -/
def notGt : Char → Bool := fun c => c != '>'

/-- The class `\d`. -/
def isDigit : Char → Bool := fun c => '0' ≤ c && c ≤ '9'

/-- Go `Regexp.FindStringSubmatch` for a pattern of two groups, the first made of the
atoms 1 and 2 and the second of the atom 3 (`^(.*?marker)(.*)$`): the two groups of
the leftmost match. -/
def reFindSplit (re : List Atom) (s : List Char) : Option (List Char × List Char) :=
  match search re 0 s with
  | some (_, [_, a, b, c, _]) => some (a ++ b, c)
  | _ => none

/-! ## The patterns of `ProcessContent` -/

/-- The pattern `(?s)<details[^>]*?>.*?</details>`. -/
def detailsRe : List Atom :=
  [.lit "<details".data, .lazy notGt, .lit ">".data, .lazy anyChar, .lit "</details>".data]

/-- The pattern `\n?<summary>.*?</summary>\n?` (mode `think`). -/
def summaryReThink : List Atom :=
  [.opt '\n', .lit "<summary>".data, .lazy notNewline, .lit "</summary>".data, .opt '\n']

/-- The pattern `\n?<summary>.*?</summary>` (modes `pure` and `raw`). -/
def summaryRe : List Atom :=
  [.opt '\n', .lit "<summary>".data, .lazy notNewline, .lit "</summary>".data]

/-- The pattern `<details[^>]*>\n?`. -/
def detailsOpenRe : List Atom :=
  [.lit "<details".data, .star notGt, .lit ">".data, .opt '\n']

/-- The pattern `\n?</details>`. -/
def detailsCloseRe : List Atom :=
  [.opt '\n', .lit "</details>".data]

/-- The pattern `(?s)^(.*?</think>)(.*)$`. -/
def thinkSplitRe : List Atom :=
  [.bot, .lazy anyChar, .lit "</think>".data, .star anyChar, .eot]

/-- The pattern `(?s)^(.*?</details>)(.*)$`. -/
def detailsSplitRe : List Atom :=
  [.bot, .lazy anyChar, .lit "</details>".data, .star anyChar, .eot]

/-- The pattern `</?details[^>]*>`. -/
def detailsCleanRe : List Atom :=
  [.lit "<".data, .opt '/', .lit "details".data, .star notGt, .lit ">".data]

/-- The pattern `(?s)<summary>.*?</summary>`. -/
def summaryBlockRe : List Atom :=
  [.lit "<summary>".data, .lazy anyChar, .lit "</summary>".data]

/-- The pattern `duration="(\d+)"`. -/
def durationRe : List Atom :=
  [.lit "duration=\"".data, .cls isDigit, .star isDigit, .lit "\"".data]

/-- The first group of the leftmost match of `duration="(\d+)"`, if there is a match. -/
def findDuration (s : List Char) : Option (List Char) :=
  match search durationRe 0 s with
  | some (_, [_, d, ds, _]) => some (d ++ ds)
  | _ => none

/-! ## The content transformer -/

/-- The state of a `ContentProcessor`: the phase of the previous processed event. -/
structure ContentProcessor where
  historyPhase : String
  deriving DecidableEq, Repr

/-- A fresh processor starts in the phase `thinking`. -/
def NewContentProcessor : ContentProcessor :=
  { historyPhase := "thinking" }

/-- The part of `ProcessContent` that every mode shares: the first complete
`<details …>…</details>` blocks and three literal markers are removed. -/
def stripDetails (content : List Char) : List Char :=
  let content := reReplaceAll detailsRe content []
  let content := replaceAll content "</thinking>".data []
  let content := replaceAll content "<Full>".data []
  replaceAll content "</Full>".data []

/-- The text of mode `think` before the answer split: block-quote markers stripped in
the thinking phase, summary removed, wrapper markers rewritten to `<think>` markers. -/
def rewriteThink (phase : String) (content : List Char) : List Char :=
  let content :=
    if phase = "thinking" then
      trimSpace (replaceAll (trimPrefix content "> ".data) "\n>".data "\n".data)
    else content
  let content := reReplaceAll summaryReThink content []
  let content := reReplaceAll detailsOpenRe content "<think>\n\n".data
  reReplaceAll detailsCloseRe content "\n\n</think>".data

/-- The `case "think"` of `ProcessContent`. -/
def processThink (historyPhase phase : String) (content : List Char) : List Char :=
  let content := rewriteThink phase content
  if phase = "answer" then
    match reFindSplit thinkSplitRe content with
    | some (_, after) =>
      if trimSpace after ≠ [] then
        if historyPhase = "thinking" then "\n\n</think>\n\n".data ++ trimLeftNewlines after
        else if historyPhase = "answer" then []
        else content
      else "\n\n</think>".data
    | none => content
  else content

/-- The text of mode `pure` before the answer split. -/
def rewritePure (phase : String) (content : List Char) : List Char :=
  let content := if phase = "thinking" then reReplaceAll summaryRe content [] else content
  let content := reReplaceAll detailsOpenRe content "<details type=\"reasoning\">".data
  reReplaceAll detailsCloseRe content "\n\n></details>".data

/-- The `case "pure"` of `ProcessContent`. -/
def processPure (historyPhase phase : String) (content : List Char) : List Char :=
  let content := rewritePure phase content
  let content :=
    if phase = "answer" then
      match reFindSplit detailsSplitRe content with
      | some (_, after) =>
        if trimSpace after ≠ [] then
          if historyPhase = "thinking" then "\n\n".data ++ trimLeftNewlines after
          else if historyPhase = "answer" then []
          else content
        else []
      | none => content
    else content
  reReplaceAll detailsCleanRe content []

/-- The text of mode `raw` before the answer split. -/
def rewriteRaw (phase : String) (content : List Char) : List Char :=
  let content := if phase = "thinking" then reReplaceAll summaryRe content [] else content
  let content :=
    reReplaceAll detailsOpenRe content "<details type=\"reasoning\" open><div>\n\n".data
  reReplaceAll detailsCloseRe content "\n\n</div></details>".data

/-- The `case "raw"` of `ProcessContent`. -/
def processRaw (historyPhase phase : String) (content : List Char) : List Char :=
  let content := rewriteRaw phase content
  if phase = "answer" then
    match reFindSplit detailsSplitRe content with
    | some (before, after) =>
      if trimSpace after ≠ [] then
        if historyPhase = "thinking" then "\n\n</details>\n\n".data ++ trimLeftNewlines after
        else if historyPhase = "answer" then []
        else content
      else
        let summaryMatch := reFindString summaryBlockRe before
        if summaryMatch ≠ [] then "\n\n</div>".data ++ summaryMatch ++ "</details>\n\n".data
        else
          match findDuration before with
          | some duration =>
            "\n\n</div><summary>Thought for ".data ++ duration ++
              " seconds</summary></details>\n\n".data
          | none => "\n\n</div></details>".data
    | none => content
  else content

/-- The method `ContentProcessor.ProcessContent`, with `THINK_TAGS_MODE` as `mode`: the
text to forward and the processor afterwards. -/
def ProcessContent (mode : String) (cp : ContentProcessor) (content phase : String) :
    String × ContentProcessor :=
  let out :=
    if content ≠ "" ∧ (phase = "thinking" ∨ containsSub content.data "summary>".data) then
      let c := stripDetails content.data
      if mode = "think" then String.mk (processThink cp.historyPhase phase c)
      else if mode = "pure" then String.mk (processPure cp.historyPhase phase c)
      else if mode = "raw" then String.mk (processRaw cp.historyPhase phase c)
      else String.mk c
    else content
  (out, { historyPhase := phase })

/-- The struct `UpstreamError`. -/
structure UpstreamError where
  Detail : String
  Code : Int
  deriving DecidableEq, Repr

/-- The anonymous struct behind `UpstreamData.Data.Inner`. -/
structure UpstreamInner where
  Error : Option UpstreamError
  deriving DecidableEq, Repr

/-- The anonymous struct behind `UpstreamData.Data` (the token usage is left out: no
code of the translator reads it). -/
structure UpstreamPayload where
  DeltaContent : String
  EditContent : String
  Phase : String
  Done : Bool
  Error : Option UpstreamError
  Inner : Option UpstreamInner
  deriving DecidableEq, Repr

/-- The struct `UpstreamData`: one decoded pushed event. -/
structure UpstreamData where
  Type_ : String
  Data : UpstreamPayload
  Error : Option UpstreamError
  deriving DecidableEq, Repr

/-- The method `ContentProcessor.ExtractContent`: the text to forward for one event and
the processor afterwards. -/
def ExtractContent (mode : String) (cp : ContentProcessor) (data : UpstreamData) :
    String × ContentProcessor :=
  let phase := data.Data.Phase
  let delta := data.Data.DeltaContent
  let edit := data.Data.EditContent
  let content := if delta = "" then edit else delta
  if content ≠ "" ∧ (phase = "answer" ∨ phase = "thinking") then
    ProcessContent mode cp content phase
  else (content, cp)

/-! ## The response emitters -/

/-- The struct `Delta` of a streamed choice. -/
structure Delta where
  Role : String
  Content : String
  deriving DecidableEq, Repr

/-- The struct `Message` of an aggregate choice. -/
structure Message where
  Role : String
  Content : String
  deriving DecidableEq, Repr

/-- One frame written to the client: a chunk (the delta and the finish reason of its
only choice) or the line `data: [DONE]`. -/
inductive Frame where
  | chunk (delta : Delta) (finishReason : String)
  | sentinel
  deriving DecidableEq, Repr

/-- The value `firstChunk`: it announces the role. -/
def firstChunk : Frame := .chunk { Role := "assistant", Content := "" } ""

/-- The value `chunk` of the loop: it carries one transformed fragment. -/
def contentChunk (content : String) : Frame := .chunk { Role := "", Content := content } ""

/-- The value `endChunk`: an empty delta with the finish reason `stop`. -/
def endChunk : Frame := .chunk { Role := "", Content := "" } "stop"

/-- The head of both loops: a line without the prefix `data: `, a line with nothing
after it and a payload that `decode` (`json.Unmarshal`) rejects are skipped. -/
def parseLine (decode : String → Option UpstreamData) (line : String) : Option UpstreamData :=
  if hasPrefix line.data "data: ".data then
    let dataStr := String.mk (trimPrefix line.data "data: ".data)
    if dataStr = "" then none else decode dataStr
  else none

/-- The error test of the streaming loop: an error object at one of the three levels. -/
def hasError (d : UpstreamData) : Bool :=
  d.Error.isSome || d.Data.Error.isSome ||
    (match d.Data.Inner with
     | some inner => inner.Error.isSome
     | none => false)

/-- The value `errObj` the streaming loop computes once the error test has passed. -/
def errObj (d : UpstreamData) : Option UpstreamError :=
  let e := d.Error
  let e := if e.isNone then d.Data.Error else e
  match d.Data.Inner with
  | some inner => if e.isNone then inner.Error else e
  | none => e

/-- The completion test of both loops. -/
def isDone (d : UpstreamData) : Bool :=
  d.Data.Done || d.Data.Phase == "done"

/-- The content chunk the loop writes for one event: none when `ExtractContent` returned
the empty string. -/
def eventFrames (content : String) : List Frame :=
  if content ≠ "" then [contentChunk content] else []

/-- The loop of `handleStreamResponseWithIDs` over the lines the scanner delivers: the
frames written after the first chunk. -/
def streamLoop (decode : String → Option UpstreamData) (mode : String) :
    ContentProcessor → List String → List Frame
  | _, [] => []
  | cp, line :: rest =>
    match parseLine decode line with
    | none => streamLoop decode mode cp rest
    | some d =>
      if hasError d then [endChunk, Frame.sentinel]
      else
        let r := ExtractContent mode cp d
        if isDone d then eventFrames r.1 ++ [endChunk, Frame.sentinel]
        else eventFrames r.1 ++ streamLoop decode mode r.2 rest

/-- The function `handleStreamResponseWithIDs` from the point where the upstream call
has answered with status 200 and the writer can flush: every frame written, in order. -/
def handleStreamResponseWithIDs (decode : String → Option UpstreamData) (mode : String)
    (lines : List String) : List Frame :=
  firstChunk :: streamLoop decode mode NewContentProcessor lines

/-- The loop of `handleNonStreamResponseWithIDs`: the content of `fullContent` when
the loop is left. -/
def collectLoop (decode : String → Option UpstreamData) (mode : String) :
    String → ContentProcessor → List String → String
  | fullContent, _, [] => fullContent
  | fullContent, cp, line :: rest =>
    match parseLine decode line with
    | none => collectLoop decode mode fullContent cp rest
    | some d =>
      let r := ExtractContent mode cp d
      let fullContent := if r.1 ≠ "" then fullContent ++ r.1 else fullContent
      if isDone d then fullContent
      else collectLoop decode mode fullContent r.2 rest

/-- The function `handleNonStreamResponseWithIDs` from the point where the upstream
call has answered with status 200: the message of the only choice of the response. -/
def handleNonStreamResponseWithIDs (decode : String → Option UpstreamData) (mode : String)
    (lines : List String) : Message :=
  { Role := "assistant", Content := collectLoop decode mode "" NewContentProcessor lines }

/-! ## Observations on a frame sequence -/

/-- A frame that announces a role. -/
def Frame.isRole : Frame → Bool
  | .chunk d _ => d.Role != ""
  | .sentinel => false

/-- A frame that carries content. -/
def Frame.isContent : Frame → Bool
  | .chunk d _ => d.Content != ""
  | .sentinel => false

/-- A frame that carries a finish reason. -/
def Frame.isFinish : Frame → Bool
  | .chunk _ fr => fr != ""
  | .sentinel => false

/-- The line `data: [DONE]`. -/
def Frame.isSentinel : Frame → Bool
  | .chunk _ _ => false
  | .sentinel => true

/-- The content a frame carries (`""` for a frame without content). -/
def Frame.content : Frame → String
  | .chunk d _ => d.Content
  | .sentinel => ""

/-- The concatenation of a list of strings, in order. -/
def concatStrings : List String → String
  | [] => ""
  | s :: rest => s ++ concatStrings rest

/-- The content of the content frames of a stream, in order. -/
def contentFrames (frames : List Frame) : List String :=
  (frames.filter Frame.isContent).map Frame.content

/-- The concatenation of the content of all content frames of a stream. -/
def streamedContent (frames : List Frame) : String :=
  concatStrings (contentFrames frames)

/-- A stand-in for `json.Unmarshal` on payloads whose decoding is known: the payloads
of `table` decode to the events next to them, every other payload is rejected. -/
def decodeTable (table : List (String × UpstreamData)) (payload : String) :
    Option UpstreamData :=
  table.lookup payload

/-- An event without error object: the fields `phase`, `delta_content`, `edit_content`
and `done` of its `data` object. -/
def event (phase delta edit : String) (done : Bool) : UpstreamData :=
  { Type_ := "chat:completion", Error := none,
    Data := { DeltaContent := delta, EditContent := edit, Phase := phase, Done := done,
              Error := none, Inner := none } }

/-- The three events of the scenario: a thought that opens, a thought that closes and
an answer with the completion flag. -/
def scenarioEvents : List UpstreamData :=
  [event "thinking" "<details>\n> hi" "" false,
   event "thinking" "</details>" "" false,
   event "answer" "world" "" true]

/-- A decoder for the scenario: the payloads `1`, `2` and `3` decode to its events. -/
def scenarioDecode : String → Option UpstreamData :=
  decodeTable (["1", "2", "3"].zip scenarioEvents)

/-- The lines of the scenario. -/
def scenarioLines : List String := ["data: 1", "data: 2", "data: 3"]

/-- The text behind the first closing marker of an answer fragment once it is rewritten
for `mode`: the second group of the split that the answer branch of each mode computes
(`none` when the rewritten fragment has no closing marker, or the mode has no branch). -/
def answerTail (mode : String) (fragment : String) : Option (List Char) :=
  let c := stripDetails fragment.data
  if mode = "think" then (reFindSplit thinkSplitRe (rewriteThink "answer" c)).map (fun r => r.2)
  else if mode = "pure" then
    (reFindSplit detailsSplitRe (rewritePure "answer" c)).map (fun r => r.2)
  else if mode = "raw" then
    (reFindSplit detailsSplitRe (rewriteRaw "answer" c)).map (fun r => r.2)
  else none

/-- The fragment of an event: `delta_content`, or `edit_content` when that is empty. -/
def fragment (d : UpstreamData) : String :=
  if d.Data.DeltaContent = "" then d.Data.EditContent else d.Data.DeltaContent

/-- An event with a top-level error object and no content. -/
def errorEvent : UpstreamData :=
  { event "" "" "" false with Error := some { Detail := "internal error", Code := 500 } }

/-- A stream that carries an error event and goes on: the payloads `e` and `a`. -/
def errorThenAnswerDecode : String → Option UpstreamData :=
  decodeTable [("e", errorEvent), ("a", event "answer" "late" "" true)]

/-- A stream that ends without completion signal: the payload `h` is its only event. -/
def truncatedDecode : String → Option UpstreamData :=
  decodeTable [("h", event "answer" "Hello" "" false)]

/-- A text without the character `<`: no marker of the transformer starts in it. -/
def noLt (t : List Char) : Prop := ∀ c ∈ t, c ≠ '<'

/-- The head of a family of answer fragments: a summary block and a closing marker,
`<summary>s</summary></details>`; the fragments of the family go on with any text. -/
def summaryClose : List Char := "<summary>s</summary></details>".data

/-- The two groups of the split that the answer branch of mode `raw` computes: the
rewritten fragment up to its first closing marker, and the text behind it. -/
def rawAnswerSplit (fragment : String) : Option (List Char × List Char) :=
  reFindSplit detailsSplitRe (rewriteRaw "answer" (stripDetails fragment.data))

/-- A text made of white space only. -/
def allSpace (t : List Char) : Prop := ∀ c ∈ t, isSpace c = true

/-- The head of a family of thinking fragments: an opening marker and a line feed. -/
def detailsOpen : List Char := "<details>\n".data

/-- The line feed that `\n?` takes at the front of a text. -/
def takeNewline : List Char → List Char
  | '\n' :: _ => ['\n']
  | _ => []

/-- A text without the one line feed that `\n?` takes at its front. -/
def dropNewline : List Char → List Char
  | '\n' :: t => t
  | t => t

/-- A text that can stand between `<details` and `>`: no `<` and no `>`. -/
def plainAttrs (a : List Char) : Prop := ∀ c ∈ a, c ≠ '<' ∧ c ≠ '>'

/-- A text that does not end with a line feed. -/
def noNewlineEnd (s : List Char) : Prop := ∀ p, s ≠ p ++ ['\n']

/-- An opening marker of the wrapper with the attributes `a`: `<details`, `a`, `>`. -/
def openMarker (a : List Char) : List Char := "<details".data ++ a ++ ">".data

/-- What stands behind the `<` of an opening marker that is followed by the text `t`. -/
def openRest (a t : List Char) : List Char := "details".data ++ (a ++ '>' :: t)

/-- The opener of a reasoning block without its `<`. -/
def reasoningRest : List Char := "details type=\"reasoning\">".data

/-- What stands behind the `<` of a closing marker that is followed by the text `u`. -/
def closeRest (u : List Char) : List Char := "/details>".data ++ u

/-! ## General facts on the two loops -/

theorem concatStrings_append (a b : List String) :
    concatStrings (a ++ b) = concatStrings a ++ concatStrings b := by
  induction a with
  | nil => simp [concatStrings]
  | cons x xs ih => simp [concatStrings, ih, String.append_assoc]

theorem contentFrames_append (a b : List Frame) :
    contentFrames (a ++ b) = contentFrames a ++ contentFrames b := by
  simp [contentFrames]

theorem streamedContent_append (a b : List Frame) :
    streamedContent (a ++ b) = streamedContent a ++ streamedContent b := by
  simp [streamedContent, contentFrames_append, concatStrings_append]

theorem streamedContent_terminator :
    streamedContent [endChunk, Frame.sentinel] = "" := by
  decide

theorem streamedContent_contentChunk (c : String) (h : c ≠ "") :
    streamedContent [contentChunk c] = c := by
  simp [streamedContent, contentFrames, contentChunk, Frame.isContent, Frame.content, h,
    concatStrings]

theorem eventFrames_plain (content : String) :
    ∀ f ∈ eventFrames content,
      f.isRole = false ∧ f.isFinish = false ∧ f.isSentinel = false ∧ f.isContent = true := by
  intro f hf
  unfold eventFrames at hf
  split at hf
  · rename_i h
    simp only [List.mem_singleton] at hf
    subst hf
    simp [contentChunk, Frame.isRole, Frame.isFinish, Frame.isSentinel, Frame.isContent, h]
  · simp at hf

theorem streamedContent_eventFrames (content : String) :
    streamedContent (eventFrames content) = content := by
  unfold eventFrames
  split
  · rename_i h
    exact streamedContent_contentChunk content h
  · rename_i h
    have : content = "" := by simpa using h
    subst this
    decide

/-- The frames of the loop never announce a role. -/
theorem streamLoop_no_role (decode : String → Option UpstreamData) (mode : String) :
    ∀ (lines : List String) (cp : ContentProcessor),
      ∀ f ∈ streamLoop decode mode cp lines, f.isRole = false := by
  intro lines
  induction lines with
  | nil => intro cp f hf; simp [streamLoop] at hf
  | cons line rest ih =>
    intro cp f hf
    simp only [streamLoop] at hf
    split at hf
    · exact ih cp f hf
    · split at hf
      · simp only [List.mem_cons, List.mem_singleton, List.mem_nil_iff, or_false] at hf
        rcases hf with rfl | rfl <;> rfl
      · split at hf
        · rcases List.mem_append.mp hf with h | h
          · exact (eventFrames_plain _ f h).1
          · simp only [List.mem_cons, List.mem_singleton, List.mem_nil_iff, or_false] at h
            rcases h with rfl | rfl <;> rfl
        · rcases List.mem_append.mp hf with h | h
          · exact (eventFrames_plain _ f h).1
          · exact ih _ f h

/-- While no event signals completion or carries an error, the loop writes content
frames only. -/
theorem streamLoop_plain (decode : String → Option UpstreamData) (mode : String) :
    ∀ (lines : List String) (cp : ContentProcessor),
      (∀ l ∈ lines, ∀ e, parseLine decode l = some e → hasError e = false ∧ isDone e = false) →
      ∀ f ∈ streamLoop decode mode cp lines, f.isFinish = false ∧ f.isSentinel = false := by
  intro lines
  induction lines with
  | nil => intro cp _ f hf; simp [streamLoop] at hf
  | cons line rest ih =>
    intro cp hpre f hf
    have hrest : ∀ l ∈ rest, ∀ e, parseLine decode l = some e →
        hasError e = false ∧ isDone e = false :=
      fun l hl => hpre l (List.mem_cons_of_mem _ hl)
    simp only [streamLoop] at hf
    split at hf
    · exact ih cp hrest f hf
    · rename_i d hd
      have hq := hpre line (List.mem_cons_self _ _) d hd
      simp only [hq.1, hq.2, Bool.false_eq_true, if_false] at hf
      rcases List.mem_append.mp hf with h | h
      · exact ⟨(eventFrames_plain _ f h).2.1, (eventFrames_plain _ f h).2.2.1⟩
      · exact ih _ hrest f h

/-- An error event ends the loop at once: whatever was written for the lines before it
is followed by the finish frame and the sentinel, and the lines after it are not read. -/
theorem streamLoop_error (decode : String → Option UpstreamData) (mode : String)
    (line : String) (d : UpstreamData) (post : List String)
    (hline : parseLine decode line = some d) (herr : hasError d = true) :
    ∀ (pre : List String) (cp : ContentProcessor),
      (∀ l ∈ pre, ∀ e, parseLine decode l = some e → hasError e = false ∧ isDone e = false) →
      streamLoop decode mode cp (pre ++ line :: post) =
        streamLoop decode mode cp pre ++ [endChunk, Frame.sentinel] := by
  intro pre
  induction pre with
  | nil => intro cp _; simp [streamLoop, hline, herr]
  | cons l rest ih =>
    intro cp hpre
    have hrest : ∀ l ∈ rest, ∀ e, parseLine decode l = some e →
        hasError e = false ∧ isDone e = false :=
      fun l hl => hpre l (List.mem_cons_of_mem _ hl)
    simp only [List.cons_append, streamLoop]
    split
    · exact ih cp hrest
    · rename_i e he
      have hq := hpre l (List.mem_cons_self _ _) e he
      simp only [hq.1, hq.2, Bool.false_eq_true, if_false, List.append_assoc]
      exact congrArg _ (ih _ hrest)

/-- A stream with a completion signal or an error event ends with the finish frame and
the sentinel, and has no other finish frame or sentinel. -/
theorem streamLoop_terminated (decode : String → Option UpstreamData) (mode : String) :
    ∀ (lines : List String) (cp : ContentProcessor),
      (∃ l ∈ lines, ∃ e, parseLine decode l = some e ∧ (hasError e = true ∨ isDone e = true)) →
      ∃ body, streamLoop decode mode cp lines = body ++ [endChunk, Frame.sentinel] ∧
        ∀ f ∈ body, f.isFinish = false ∧ f.isSentinel = false := by
  intro lines
  induction lines with
  | nil => intro cp h; simp at h
  | cons line rest ih =>
    intro cp h
    simp only [streamLoop]
    split
    · rename_i hnone
      obtain ⟨l, hl, e, he, hsig⟩ := h
      rcases List.mem_cons.mp hl with rfl | hl
      · rw [hnone] at he; cases he
      · exact ih cp ⟨l, hl, e, he, hsig⟩
    · rename_i d hd
      by_cases herr : hasError d = true
      · exact ⟨[], by simp [herr], by simp⟩
      · by_cases hdone : isDone d = true
        · refine ⟨eventFrames (ExtractContent mode cp d).1, by simp [herr, hdone], ?_⟩
          intro f hf
          exact ⟨(eventFrames_plain _ f hf).2.1, (eventFrames_plain _ f hf).2.2.1⟩
        · obtain ⟨l, hl, e, he, hsig⟩ := h
          have hrest : ∃ l ∈ rest, ∃ e, parseLine decode l = some e ∧
              (hasError e = true ∨ isDone e = true) := by
            rcases List.mem_cons.mp hl with rfl | hl
            · rw [hd] at he
              cases he
              rcases hsig with h1 | h1
              · exact absurd h1 herr
              · exact absurd h1 hdone
            · exact ⟨l, hl, e, he, hsig⟩
          obtain ⟨body, hbody, hplain⟩ := ih (ExtractContent mode cp d).2 hrest
          refine ⟨eventFrames (ExtractContent mode cp d).1 ++ body, ?_, ?_⟩
          · simp [herr, hdone, hbody]
          · intro f hf
            rcases List.mem_append.mp hf with h1 | h1
            · exact ⟨(eventFrames_plain _ f h1).2.1, (eventFrames_plain _ f h1).2.2.1⟩
            · exact hplain f h1

/-- The accumulator of the collecting loop is a prefix of its result. -/
theorem collectLoop_acc (decode : String → Option UpstreamData) (mode : String) :
    ∀ (lines : List String) (acc : String) (cp : ContentProcessor),
      collectLoop decode mode acc cp lines = acc ++ collectLoop decode mode "" cp lines := by
  intro lines
  induction lines with
  | nil => intro acc cp; simp [collectLoop]
  | cons line rest ih =>
    intro acc cp
    simp only [collectLoop]
    split
    · exact ih acc cp
    · rename_i d hd
      by_cases hc : (ExtractContent mode cp d).1 = ""
      · simp only [hc, ne_eq, not_true_eq_false, if_false]
        split
        · simp
        · exact ih acc _
      · simp only [hc, ne_eq, not_false_eq_true, if_true]
        split
        · simp
        · rw [ih (acc ++ _), ih ("" ++ _)]
          simp [String.append_assoc]

/-- Without error events the two paths agree: the streamed content frames concatenate
to the content the non-streaming loop collects, from every processor state. -/
theorem streamLoop_collectLoop (decode : String → Option UpstreamData) (mode : String) :
    ∀ (lines : List String) (cp : ContentProcessor),
      (∀ l ∈ lines, ∀ e, parseLine decode l = some e → hasError e = false) →
      streamedContent (streamLoop decode mode cp lines) =
        collectLoop decode mode "" cp lines := by
  intro lines
  induction lines with
  | nil => intro cp _; simp [streamLoop, collectLoop, streamedContent, contentFrames, concatStrings]
  | cons line rest ih =>
    intro cp hpre
    have hrest : ∀ l ∈ rest, ∀ e, parseLine decode l = some e → hasError e = false :=
      fun l hl => hpre l (List.mem_cons_of_mem _ hl)
    simp only [streamLoop, collectLoop]
    split
    · exact ih cp hrest
    · rename_i d hd
      have hq := hpre line (List.mem_cons_self _ _) d hd
      have hfrag : (if (ExtractContent mode cp d).1 ≠ "" then "" ++ (ExtractContent mode cp d).1
          else "") = (ExtractContent mode cp d).1 := by
        by_cases hc : (ExtractContent mode cp d).1 = ""
        · simp [hc]
        · simp [hc]
      simp only [hq, Bool.false_eq_true, if_false, hfrag]
      split
      · simp [streamedContent_append, streamedContent_eventFrames, streamedContent_terminator]
      · rw [streamedContent_append, streamedContent_eventFrames, ih _ hrest,
          collectLoop_acc decode mode rest (ExtractContent mode cp d).1]

/-- Without error events the streamed content equals `message.content` of the
non-streaming response. -/
theorem stream_nonstream_agree (decode : String → Option UpstreamData) (mode : String)
    (lines : List String)
    (h : ∀ l ∈ lines, ∀ e, parseLine decode l = some e → hasError e = false) :
    streamedContent (handleStreamResponseWithIDs decode mode lines) =
      (handleNonStreamResponseWithIDs decode mode lines).Content := by
  have hfirst : streamedContent (handleStreamResponseWithIDs decode mode lines) =
      streamedContent (streamLoop decode mode NewContentProcessor lines) := by
    simp [handleStreamResponseWithIDs, streamedContent, contentFrames, firstChunk,
      Frame.isContent]
  rw [hfirst]
  exact streamLoop_collectLoop decode mode lines NewContentProcessor h

/-- The processor after one event: the phase of the event is recorded when the event is
handed to `ProcessContent`, and only then. -/
theorem ExtractContent_state (mode : String) (cp : ContentProcessor) (d : UpstreamData) :
    (ExtractContent mode cp d).2 =
      if fragment d ≠ "" ∧ (d.Data.Phase = "answer" ∨ d.Data.Phase = "thinking") then
        { historyPhase := d.Data.Phase }
      else cp := by
  unfold ExtractContent fragment
  simp only []
  by_cases h : (if d.Data.DeltaContent = "" then d.Data.EditContent else d.Data.DeltaContent) ≠ "" ∧
      (d.Data.Phase = "answer" ∨ d.Data.Phase = "thinking")
  · rw [if_pos h, if_pos h]
    rfl
  · rw [if_neg h, if_neg h]

/-- An event of another phase than `answer` and `thinking` is not transformed. -/
theorem ExtractContent_other_phase (mode : String) (cp : ContentProcessor) (d : UpstreamData)
    (h1 : d.Data.Phase ≠ "thinking") (h2 : d.Data.Phase ≠ "answer") :
    ExtractContent mode cp d = (fragment d, cp) := by
  unfold ExtractContent fragment
  simp [h1, h2]

theorem answerTail_think (f : String) :
    answerTail "think" f =
      (reFindSplit thinkSplitRe (rewriteThink "answer" (stripDetails f.data))).map
        (fun r => r.2) := rfl

theorem answerTail_pure (f : String) :
    answerTail "pure" f =
      (reFindSplit detailsSplitRe (rewritePure "answer" (stripDetails f.data))).map
        (fun r => r.2) := rfl

theorem answerTail_raw (f : String) :
    answerTail "raw" f =
      (reFindSplit detailsSplitRe (rewriteRaw "answer" (stripDetails f.data))).map
        (fun r => r.2) := rfl

/-! ## The answer branch on fragments that keep a closing marker -/

theorem hasPrefix_lt_false (l : List Char) : ∀ (s : List Char), noLt s →
    hasPrefix s ('<' :: l) = false := by
  intro s hs
  cases s with
  | nil => rfl
  | cons c cs =>
    have hc : c ≠ '<' := hs c (List.mem_cons_self _ _)
    simp [hasPrefix, hc]

theorem noLt_tail {c : Char} {cs : List Char} (h : noLt (c :: cs)) : noLt cs :=
  fun x hx => h x (List.mem_cons_of_mem _ hx)

theorem replaceAllAux_noLt (l new : List Char) : ∀ (t : List Char), noLt t →
    replaceAllAux ('<' :: l) new 0 t = t := by
  intro t
  induction t with
  | nil => intro _; rfl
  | cons c cs ih =>
    intro h
    simp only [replaceAllAux, hasPrefix_lt_false l (c :: cs) h, Bool.false_eq_true, if_false,
      ih (noLt_tail h)]

theorem reReplaceAux_noMatch (re : List Atom) (repl : List Char)
    (hre : ∀ pos s, noLt s → matchHere re pos s = none) : ∀ (t : List Char) (pos : Nat),
    noLt t → reReplaceAux re repl pos 0 t = t := by
  intro t
  induction t with
  | nil => intro _ _; rfl
  | cons c cs ih =>
    intro pos h
    simp only [reReplaceAux, hre pos (c :: cs) h, ih (pos + 1) (noLt_tail h)]

theorem matchHere_lit_noLt (l : List Char) (re : List Atom) (pos : Nat) (s : List Char)
    (hs : noLt s) : matchHere (.lit ('<' :: l) :: re) pos s = none := by
  simp [matchHere, matchAtom, hasPrefix_lt_false l s hs]

theorem matchHere_opt_lit_noLt (c : Char) (l : List Char) (re : List Atom) (pos : Nat)
    (s : List Char) (hs : noLt s) :
    matchHere (.opt c :: .lit ('<' :: l) :: re) pos s = none := by
  have hk : ∀ pos s, noLt s → matchHere (.lit ('<' :: l) :: re) pos s = none :=
    fun pos s hs => matchHere_lit_noLt l re pos s hs
  cases s with
  | nil =>
    have := hk pos [] hs
    simp only [matchHere, List.foldr] at this ⊢
    simp [matchAtom, hasPrefix]
  | cons x xs =>
    have h1 := hk pos (x :: xs) hs
    have h2 := hk (pos + 1) xs (noLt_tail hs)
    simp only [matchHere, List.foldr] at h1 h2 ⊢
    simp only [matchAtom] at h1 h2 ⊢
    split <;> simp_all

theorem starGreedy_anyChar_eot : ∀ (t : List Char) (pos : Nat),
    starGreedy anyChar (matchHere [Atom.eot]) pos t = some [t, []] := by
  intro t
  induction t with
  | nil => intro pos; simp [starGreedy, matchHere, matchAtom]
  | cons c cs ih => intro pos; simp [starGreedy, anyChar, ih]

theorem detailsRe_noLt (pos : Nat) (s : List Char) (hs : noLt s) :
    matchHere detailsRe pos s = none := matchHere_lit_noLt _ _ pos s hs

theorem summaryReThink_noLt (pos : Nat) (s : List Char) (hs : noLt s) :
    matchHere summaryReThink pos s = none := matchHere_opt_lit_noLt _ _ _ pos s hs

theorem summaryRe_noLt (pos : Nat) (s : List Char) (hs : noLt s) :
    matchHere summaryRe pos s = none := matchHere_opt_lit_noLt _ _ _ pos s hs

theorem detailsOpenRe_noLt (pos : Nat) (s : List Char) (hs : noLt s) :
    matchHere detailsOpenRe pos s = none := matchHere_lit_noLt _ _ pos s hs

theorem detailsCloseRe_noLt (pos : Nat) (s : List Char) (hs : noLt s) :
    matchHere detailsCloseRe pos s = none := matchHere_opt_lit_noLt _ _ _ pos s hs

theorem detailsCleanRe_noLt (pos : Nat) (s : List Char) (hs : noLt s) :
    matchHere detailsCleanRe pos s = none := matchHere_lit_noLt _ _ pos s hs

theorem summaryClose_eq : summaryClose =
    ['<','s','u','m','m','a','r','y','>','s','<','/','s','u','m','m','a','r','y','>',
     '<','/','d','e','t','a','i','l','s','>'] := rfl

theorem stripDetails_family (t : List Char) (ht : noLt t) :
    stripDetails (summaryClose ++ t) = summaryClose ++ t := by
  have h1 : reReplaceAll detailsRe (summaryClose ++ t) [] = summaryClose ++ t := by
    rw [summaryClose_eq]
    simp only [reReplaceAll, List.cons_append, List.nil_append]
    simp [reReplaceAux, matchHere, matchAtom, detailsRe, hasPrefix]
    exact reReplaceAux_noMatch _ _ detailsRe_noLt t _ ht
  unfold stripDetails
  simp only [h1]
  rw [summaryClose_eq]
  simp [replaceAll, replaceAllAux, hasPrefix]
  rw [replaceAllAux_noLt _ _ t ht, replaceAllAux_noLt _ _ t ht, replaceAllAux_noLt _ _ t ht]

theorem rewriteThink_family (t : List Char) (ht : noLt t) :
    rewriteThink "answer" (summaryClose ++ t) = "\n\n</think>".data ++ t := by
  have h1 : reReplaceAll summaryReThink (summaryClose ++ t) [] = "</details>".data ++ t := by
    rw [summaryClose_eq]
    simp only [reReplaceAll, List.cons_append, List.nil_append]
    simp [reReplaceAux, matchHere, matchAtom, summaryReThink, hasPrefix, starLazy, notNewline]
    exact reReplaceAux_noMatch _ _ summaryReThink_noLt t _ ht
  have h2 : reReplaceAll detailsOpenRe ("</details>".data ++ t) "<think>\n\n".data =
      "</details>".data ++ t := by
    simp only [reReplaceAll, List.cons_append, List.nil_append]
    simp [reReplaceAux, matchHere, matchAtom, detailsOpenRe, hasPrefix]
    exact reReplaceAux_noMatch _ _ detailsOpenRe_noLt t _ ht
  have h3 : reReplaceAll detailsCloseRe ("</details>".data ++ t) "\n\n</think>".data =
      "\n\n</think>".data ++ t := by
    simp only [reReplaceAll, List.cons_append, List.nil_append]
    simp [reReplaceAux, matchHere, matchAtom, detailsCloseRe, hasPrefix]
    exact reReplaceAux_noMatch _ _ detailsCloseRe_noLt t _ ht
  unfold rewriteThink
  simp only [show ("answer" = "thinking") = False from eq_false (by decide), if_false, h1, h2, h3]

theorem thinkSplit_family (t : List Char) :
    reFindSplit thinkSplitRe ("\n\n</think>".data ++ t) = some ("\n\n</think>".data, t) := by
  have hk := starGreedy_anyChar_eot t
  simp only [matchHere, List.foldr] at hk
  simp [reFindSplit, search, matchHere, matchAtom, thinkSplitRe, hasPrefix, starLazy, anyChar, hk]

theorem starGreedy_anyChar_eot_k (t : List Char) (pos : Nat) :
    starGreedy anyChar (matchAtom Atom.eot (fun _ _ => some [])) pos t = some [t, []] := by
  have hk := starGreedy_anyChar_eot t pos
  simpa only [matchHere, List.foldr] using hk

theorem rewritePure_family (t : List Char) (ht : noLt t) :
    rewritePure "answer" (summaryClose ++ t) =
      "<summary>s</summary>\n\n></details>".data ++ t := by
  have h2 : reReplaceAll detailsOpenRe (summaryClose ++ t) "<details type=\"reasoning\">".data =
      summaryClose ++ t := by
    rw [summaryClose_eq]
    simp only [reReplaceAll, List.cons_append, List.nil_append]
    simp [reReplaceAux, matchHere, matchAtom, detailsOpenRe, hasPrefix]
    exact reReplaceAux_noMatch _ _ detailsOpenRe_noLt t _ ht
  have h3 : reReplaceAll detailsCloseRe (summaryClose ++ t) "\n\n></details>".data =
      "<summary>s</summary>\n\n></details>".data ++ t := by
    rw [summaryClose_eq]
    simp only [reReplaceAll, List.cons_append, List.nil_append]
    simp [reReplaceAux, matchHere, matchAtom, detailsCloseRe, hasPrefix]
    exact reReplaceAux_noMatch _ _ detailsCloseRe_noLt t _ ht
  unfold rewritePure
  simp only [show ("answer" = "thinking") = False from eq_false (by decide), if_false, h2, h3]

theorem rewriteRaw_family (t : List Char) (ht : noLt t) :
    rewriteRaw "answer" (summaryClose ++ t) =
      "<summary>s</summary>\n\n</div></details>".data ++ t := by
  have h2 : reReplaceAll detailsOpenRe (summaryClose ++ t)
      "<details type=\"reasoning\" open><div>\n\n".data = summaryClose ++ t := by
    rw [summaryClose_eq]
    simp only [reReplaceAll, List.cons_append, List.nil_append]
    simp [reReplaceAux, matchHere, matchAtom, detailsOpenRe, hasPrefix]
    exact reReplaceAux_noMatch _ _ detailsOpenRe_noLt t _ ht
  have h3 : reReplaceAll detailsCloseRe (summaryClose ++ t) "\n\n</div></details>".data =
      "<summary>s</summary>\n\n</div></details>".data ++ t := by
    rw [summaryClose_eq]
    simp only [reReplaceAll, List.cons_append, List.nil_append]
    simp [reReplaceAux, matchHere, matchAtom, detailsCloseRe, hasPrefix]
    exact reReplaceAux_noMatch _ _ detailsCloseRe_noLt t _ ht
  unfold rewriteRaw
  simp only [show ("answer" = "thinking") = False from eq_false (by decide), if_false, h2, h3]

theorem pureSplit_family (t : List Char) :
    reFindSplit detailsSplitRe ("<summary>s</summary>\n\n></details>".data ++ t) =
      some ("<summary>s</summary>\n\n></details>".data, t) := by
  simp [reFindSplit, search, matchHere, matchAtom, detailsSplitRe, hasPrefix, starLazy, anyChar,
    starGreedy_anyChar_eot_k]

theorem rawSplit_family (t : List Char) :
    reFindSplit detailsSplitRe ("<summary>s</summary>\n\n</div></details>".data ++ t) =
      some ("<summary>s</summary>\n\n</div></details>".data, t) := by
  simp [reFindSplit, search, matchHere, matchAtom, detailsSplitRe, hasPrefix, starLazy, anyChar,
    starGreedy_anyChar_eot_k]

/-- On the family, the text behind the first closing marker is the tail `t`, in each of
the three modes. -/
theorem answerTail_family (mode : String) (t : List Char) (ht : noLt t)
    (hmode : mode = "think" ∨ mode = "pure" ∨ mode = "raw") :
    answerTail mode (String.mk (summaryClose ++ t)) = some t := by
  rcases hmode with rfl | rfl | rfl
  · rw [answerTail_think]
    show Option.map _ (reFindSplit thinkSplitRe
      (rewriteThink "answer" (stripDetails (summaryClose ++ t)))) = some t
    rw [stripDetails_family t ht, rewriteThink_family t ht, thinkSplit_family]
    rfl
  · rw [answerTail_pure]
    show Option.map _ (reFindSplit detailsSplitRe
      (rewritePure "answer" (stripDetails (summaryClose ++ t)))) = some t
    rw [stripDetails_family t ht, rewritePure_family t ht, pureSplit_family]
    rfl
  · rw [answerTail_raw]
    show Option.map _ (reFindSplit detailsSplitRe
      (rewriteRaw "answer" (stripDetails (summaryClose ++ t)))) = some t
    rw [stripDetails_family t ht, rewriteRaw_family t ht, rawSplit_family]
    rfl

theorem containsSub_family (t : List Char) :
    containsSub (summaryClose ++ t) "summary>".data = true := by
  rw [summaryClose_eq]
  simp [containsSub, hasPrefix]

theorem fragment_event (phase delta : String) (done : Bool) :
    fragment (event phase delta "" done) = delta := by
  unfold fragment event
  by_cases h : delta = "" <;> simp [h]

theorem containsSub_summary_ne_empty (f : String)
    (h : containsSub f.data "summary>".data = true) : f ≠ "" := by
  intro hf
  rw [hf] at h
  exact absurd h (by decide)

/-- The splice of mode `think`: after a thinking event, an answer fragment with a
summary marker and with text `after`, not all white space, behind the first `</think>`
of its rewritten text comes out as `"\n\n</think>\n\n"` and `after` without its leading
line feeds. -/
theorem ExtractContent_think_splice (cp : ContentProcessor) (d : UpstreamData)
    (after : List Char)
    (hprev : cp.historyPhase = "thinking") (hphase : d.Data.Phase = "answer")
    (hsum : containsSub (fragment d).data "summary>".data = true)
    (htail : answerTail "think" (fragment d) = some after)
    (hne : trimSpace after ≠ []) :
    (ExtractContent "think" cp d).1 =
      String.mk ("\n\n</think>\n\n".data ++ trimLeftNewlines after) := by
  have hfrag : fragment d ≠ "" := containsSub_summary_ne_empty _ hsum
  unfold fragment at hfrag hsum htail
  rw [answerTail_think] at htail
  simp only [Option.map_eq_some'] at htail
  obtain ⟨⟨before, tail⟩, hr, hr2⟩ := htail
  simp only at hr2
  subst hr2
  simp [ExtractContent, ProcessContent, processThink, hphase, hfrag, hsum, hr, hne, hprev]

/-- The suppression of a repeated answer: when the last phase is `answer`, an answer
fragment with a summary marker and with text, not all white space, behind the first
closing marker of its rewritten text comes out empty, in each of the three modes. -/
theorem ExtractContent_answer_suppressed (mode : String) (d : UpstreamData)
    (after : List Char) (hphase : d.Data.Phase = "answer")
    (hsum : containsSub (fragment d).data "summary>".data = true)
    (htail : answerTail mode (fragment d) = some after)
    (hne : trimSpace after ≠ []) :
    (ExtractContent mode { historyPhase := "answer" } d).1 = "" := by
  have hfrag : fragment d ≠ "" := containsSub_summary_ne_empty _ hsum
  unfold fragment at hfrag hsum htail
  have hempty : String.mk [] = "" := rfl
  by_cases hthink : mode = "think"
  · subst hthink
    rw [answerTail_think] at htail
    simp only [Option.map_eq_some'] at htail
    obtain ⟨⟨before, tail⟩, hr, hr2⟩ := htail
    simp only at hr2
    subst hr2
    simp [ExtractContent, ProcessContent, processThink, hphase, hfrag, hsum, hr, hne, hempty]
  · by_cases hpure : mode = "pure"
    · subst hpure
      rw [answerTail_pure] at htail
      simp only [Option.map_eq_some'] at htail
      obtain ⟨⟨before, tail⟩, hr, hr2⟩ := htail
      simp only at hr2
      subst hr2
      simp [ExtractContent, ProcessContent, processPure, hphase, hfrag, hsum, hr, hne, hempty,
        reReplaceAll, reReplaceAux]
    · by_cases hraw : mode = "raw"
      · subst hraw
        rw [answerTail_raw] at htail
        simp only [Option.map_eq_some'] at htail
        obtain ⟨⟨before, tail⟩, hr, hr2⟩ := htail
        simp only at hr2
        subst hr2
        simp [ExtractContent, ProcessContent, processRaw, hphase, hfrag, hsum, hr, hne, hempty]
      · simp [answerTail, hthink, hpure, hraw] at htail

/-- The splice on the family: under mode `think` and after a thinking event, the answer
fragment `<summary>s</summary></details>` followed by a text `t` without `<`, not all
white space, comes out as `"\n\n</think>\n\n"` and `t` without its leading line feeds. -/
theorem think_splice_family (cp : ContentProcessor) (t : List Char) (done : Bool)
    (hprev : cp.historyPhase = "thinking") (ht : noLt t) (hne : trimSpace t ≠ []) :
    (ExtractContent "think" cp (event "answer" (String.mk (summaryClose ++ t)) "" done)).1 =
      String.mk ("\n\n</think>\n\n".data ++ trimLeftNewlines t) := by
  apply ExtractContent_think_splice cp _ t hprev rfl
  · rw [fragment_event]; exact containsSub_family t
  · rw [fragment_event]; exact answerTail_family "think" t ht (Or.inl rfl)
  · exact hne

/-- The suppression on the family: in each of the three modes, after an answer event
with a non-empty fragment, the answer fragment `<summary>s</summary></details>`
followed by a text `t` without `<`, not all white space, comes out empty. -/
theorem answer_suppressed_family (mode : String) (cp : ContentProcessor) (d1 : UpstreamData)
    (t : List Char) (done : Bool)
    (hmode : mode = "think" ∨ mode = "pure" ∨ mode = "raw")
    (h1 : d1.Data.Phase = "answer") (hfrag1 : fragment d1 ≠ "")
    (ht : noLt t) (hne : trimSpace t ≠ []) :
    (ExtractContent mode (ExtractContent mode cp d1).2
      (event "answer" (String.mk (summaryClose ++ t)) "" done)).1 = "" := by
  have hstate : (ExtractContent mode cp d1).2 = { historyPhase := "answer" } := by
    rw [ExtractContent_state]
    simp [hfrag1, h1]
  rw [hstate]
  apply ExtractContent_answer_suppressed mode _ t rfl
  · rw [fragment_event]; exact containsSub_family t
  · rw [fragment_event]; exact answerTail_family mode t ht hmode
  · exact hne

/-! ## The thought-only terminal frame of mode `raw` -/

/-- The terminal frame of mode `raw`: for an answer fragment with a summary marker whose
rewritten text has nothing but white space behind its first closing marker, the output
is made from the text `before`, up to that marker: its first summary block when it has
one, else the number of its first `duration` attribute, else the bare closing. -/
theorem ExtractContent_raw_terminal (cp : ContentProcessor) (d : UpstreamData)
    (before after : List Char) (hphase : d.Data.Phase = "answer")
    (hsum : containsSub (fragment d).data "summary>".data = true)
    (hsplit : rawAnswerSplit (fragment d) = some (before, after))
    (hblank : trimSpace after = []) :
    (ExtractContent "raw" cp d).1 =
      String.mk
        (if reFindString summaryBlockRe before ≠ [] then
          "\n\n</div>".data ++ reFindString summaryBlockRe before ++ "</details>\n\n".data
        else
          match findDuration before with
          | some duration =>
            "\n\n</div><summary>Thought for ".data ++ duration ++
              " seconds</summary></details>\n\n".data
          | none => "\n\n</div></details>".data) := by
  have hfrag : fragment d ≠ "" := containsSub_summary_ne_empty _ hsum
  unfold fragment at hfrag hsum hsplit
  unfold rawAnswerSplit at hsplit
  simp [ExtractContent, ProcessContent, processRaw, hphase, hfrag, hsum, hsplit, hblank]

theorem allSpace_noLt (t : List Char) (h : allSpace t) : noLt t := by
  intro c hc hlt
  have := h c hc
  rw [hlt] at this
  exact absurd this (by decide)

theorem trimSpace_allSpace (t : List Char) (h : allSpace t) : trimSpace t = [] := by
  have h1 : t.dropWhile isSpace = [] := List.dropWhile_eq_nil_iff.mpr h
  simp [trimSpace, h1]

/-- The terminal frame on the family: under mode `raw`, the answer fragment
`<summary>s</summary></details>` followed by white space only comes out as the closing
of the inner container, the summary block and the closing marker. -/
theorem raw_terminal_family (cp : ContentProcessor) (t : List Char) (done : Bool)
    (ht : allSpace t) :
    (ExtractContent "raw" cp (event "answer" (String.mk (summaryClose ++ t)) "" done)).1 =
      "\n\n</div><summary>s</summary></details>\n\n" := by
  have hsplit : rawAnswerSplit (String.mk (summaryClose ++ t)) =
      some ("<summary>s</summary>\n\n</div></details>".data, t) := by
    show reFindSplit detailsSplitRe (rewriteRaw "answer" (stripDetails (summaryClose ++ t))) = _
    rw [stripDetails_family t (allSpace_noLt t ht), rewriteRaw_family t (allSpace_noLt t ht),
      rawSplit_family]
  have h := ExtractContent_raw_terminal cp
    (event "answer" (String.mk (summaryClose ++ t)) "" done)
    "<summary>s</summary>\n\n</div></details>".data t rfl
    (by rw [fragment_event]; exact containsSub_family t)
    (by rw [fragment_event]; exact hsplit) (trimSpace_allSpace t ht)
  rw [h]
  decide

/-! ## Mode `pure` on a thinking fragment that opens the wrapper -/

theorem detailsOpen_eq : detailsOpen = ['<','d','e','t','a','i','l','s','>','\n'] := rfl

theorem matchHere_cons (a : Atom) (re : List Atom) :
    matchHere (a :: re) = matchAtom a (matchHere re) := rfl

theorem matchHere_lazy_lit_noLt (p : Char → Bool) (l : List Char) (re : List Atom) :
    ∀ (s : List Char) (pos : Nat), noLt s →
      matchHere (.lazy p :: .lit ('<' :: l) :: re) pos s = none := by
  intro s
  induction s with
  | nil =>
    intro pos hs
    have hk := matchHere_lit_noLt l re pos [] hs
    rw [matchHere_cons]
    simp only [matchAtom, starLazy, hk, Option.map_none']
  | cons c cs ih =>
    intro pos hs
    have hk := matchHere_lit_noLt l re pos (c :: cs) hs
    have hrec := ih (pos + 1) (noLt_tail hs)
    rw [matchHere_cons] at hrec ⊢
    simp only [matchAtom] at hrec ⊢
    simp only [starLazy, hk, hrec]
    split <;> rfl

theorem noLt_newline_cons (t : List Char) (ht : noLt t) : noLt ('\n' :: t) := by
  intro c hc
  rcases List.mem_cons.mp hc with rfl | h
  · decide
  · exact ht c h

theorem stripDetails_detailsOpen (t : List Char) (ht : noLt t) :
    stripDetails (detailsOpen ++ t) = detailsOpen ++ t := by
  have hinner := matchHere_lazy_lit_noLt anyChar "/details>".data [] t 10 ht
  have h0 : matchHere detailsRe 0 ('<' :: 'd' :: 'e' :: 't' :: 'a' :: 'i' :: 'l' :: 's' :: '>' ::
      '\n' :: t) = none := by
    simp only [detailsRe, matchHere_cons]
    simp only [matchHere_cons, matchAtom] at hinner
    simp [matchAtom, hasPrefix, starLazy, notGt, anyChar, hinner]
  have h1 : reReplaceAll detailsRe (detailsOpen ++ t) [] = detailsOpen ++ t := by
    rw [detailsOpen_eq]
    simp only [reReplaceAll, List.cons_append, List.nil_append]
    rw [reReplaceAux, h0]
    simp [reReplaceAux, matchHere, matchAtom, detailsRe, hasPrefix]
    exact reReplaceAux_noMatch _ _ detailsRe_noLt t _ ht
  unfold stripDetails
  simp only [h1]
  rw [detailsOpen_eq]
  simp [replaceAll, replaceAllAux, hasPrefix]
  rw [replaceAllAux_noLt _ _ t ht, replaceAllAux_noLt _ _ t ht, replaceAllAux_noLt _ _ t ht]

theorem rewritePure_detailsOpen (t : List Char) (ht : noLt t) :
    rewritePure "thinking" (detailsOpen ++ t) = "<details type=\"reasoning\">".data ++ t := by
  have h1 : reReplaceAll summaryRe (detailsOpen ++ t) [] = detailsOpen ++ t := by
    rw [detailsOpen_eq]
    simp only [reReplaceAll, List.cons_append, List.nil_append]
    simp [reReplaceAux, matchHere, matchAtom, summaryRe, hasPrefix, hasPrefix_lt_false _ t ht]
    exact reReplaceAux_noMatch _ _ summaryRe_noLt t _ ht
  have h2 : reReplaceAll detailsOpenRe (detailsOpen ++ t) "<details type=\"reasoning\">".data =
      "<details type=\"reasoning\">".data ++ t := by
    rw [detailsOpen_eq]
    simp only [reReplaceAll, List.cons_append, List.nil_append]
    simp [reReplaceAux, matchHere, matchAtom, detailsOpenRe, hasPrefix, starGreedy, notGt]
    exact reReplaceAux_noMatch _ _ detailsOpenRe_noLt t _ ht
  have h3 : reReplaceAll detailsCloseRe ("<details type=\"reasoning\">".data ++ t)
      "\n\n></details>".data = "<details type=\"reasoning\">".data ++ t := by
    simp only [reReplaceAll, List.cons_append, List.nil_append]
    simp [reReplaceAux, matchHere, matchAtom, detailsCloseRe, hasPrefix]
    exact reReplaceAux_noMatch _ _ detailsCloseRe_noLt t _ ht
  unfold rewritePure
  simp only [if_true, h1, h2, h3]

theorem detailsClean_opener (t : List Char) (ht : noLt t) :
    reReplaceAll detailsCleanRe ("<details type=\"reasoning\">".data ++ t) [] = t := by
  simp only [reReplaceAll, List.cons_append, List.nil_append]
  simp [reReplaceAux, matchHere, matchAtom, detailsCleanRe, hasPrefix, starGreedy, notGt]
  exact reReplaceAux_noMatch _ _ detailsCleanRe_noLt t _ ht

/-- Mode `pure` on the family of thinking fragments: the opening marker and the line
feed behind it are rewritten to the opener of a reasoning block, which the final
clean-up of `details` tags removes; the text `t` behind them is what comes out. -/
theorem ExtractContent_pure_detailsOpen (cp : ContentProcessor) (t : List Char) (done : Bool)
    (ht : noLt t) :
    (ExtractContent "pure" cp (event "thinking" (String.mk (detailsOpen ++ t)) "" done)).1 =
      String.mk t := by
  have hne : String.mk (detailsOpen ++ t) ≠ "" := by
    intro h
    have := congrArg String.data h
    rw [detailsOpen_eq] at this
    simp at this
  have hp : processPure cp.historyPhase "thinking" (stripDetails (detailsOpen ++ t)) = t := by
    rw [stripDetails_detailsOpen t ht]
    unfold processPure
    simp only [rewritePure_detailsOpen t ht,
      show ("thinking" = "answer") = False from eq_false (by decide), if_false]
    exact detailsClean_opener t ht
  simp [ExtractContent, ProcessContent, event, hne, hp]

/-! ## Replacement around a single marker -/

theorem takeNewline_append_dropNewline (t : List Char) :
    takeNewline t ++ dropNewline t = t := by
  cases t with
  | nil => rfl
  | cons c cs =>
    by_cases h : c = '\n'
    · subst h; rfl
    · simp [takeNewline, dropNewline, h]

theorem noLt_dropNewline (t : List Char) (ht : noLt t) : noLt (dropNewline t) := by
  cases t with
  | nil => exact ht
  | cons c cs =>
    by_cases h : c = '\n'
    · subst h; exact noLt_tail ht
    · simpa [dropNewline, h] using ht

theorem noLt_append {s t : List Char} (hs : noLt s) (ht : noLt t) : noLt (s ++ t) := by
  intro c hc
  rcases List.mem_append.mp hc with h | h
  · exact hs c h
  · exact ht c h

theorem noLt_cons {c : Char} {t : List Char} (hc : c ≠ '<') (ht : noLt t) : noLt (c :: t) := by
  intro x hx
  rcases List.mem_cons.mp hx with rfl | h
  · exact hc
  · exact ht x h

theorem plainAttrs_noLt (a : List Char) (ha : plainAttrs a) : noLt a :=
  fun c hc => (ha c hc).1

theorem hasPrefix_head_ne (c : Char) (cs l : List Char) (h : c ≠ '<') :
    hasPrefix (c :: cs) ('<' :: l) = false := by
  simp [hasPrefix, h]

/-- No match of a pattern that opens with a literal `<…` starts at another character. -/
theorem matchHere_lit_head_ne (l : List Char) (re : List Atom) (pos : Nat) (c : Char)
    (cs : List Char) (h : c ≠ '<') :
    matchHere (.lit ('<' :: l) :: re) pos (c :: cs) = none := by
  simp [matchHere, matchAtom, hasPrefix_head_ne c cs l h]

/-- No match of a pattern `c0?<…` starts at a character other than `<` unless the
literal stands right behind it. -/
theorem matchHere_opt_lit_head_ne (c0 : Char) (l : List Char) (re : List Atom) (pos : Nat)
    (c : Char) (cs : List Char) (h : c ≠ '<') (hnext : hasPrefix cs ('<' :: l) = false) :
    matchHere (.opt c0 :: .lit ('<' :: l) :: re) pos (c :: cs) = none := by
  rw [matchHere_cons, matchHere_cons]
  simp only [matchAtom, hnext, hasPrefix_head_ne c cs l h, Bool.false_eq_true, if_false]
  split <;> rfl

/-- No match of a pattern `c0?<…` starts at a `<` that the literal does not fit. -/
theorem matchHere_opt_lit_at (c0 : Char) (l : List Char) (re : List Atom) (pos : Nat)
    (r : List Char) (hc0 : c0 ≠ '<') (hr : hasPrefix r l = false) :
    matchHere (.opt c0 :: .lit ('<' :: l) :: re) pos ('<' :: r) = none := by
  have hne : ('<' == c0) = false := by
    simpa using fun h : '<' = c0 => hc0 h.symm
  rw [matchHere_cons, matchHere_cons]
  simp [matchAtom, hasPrefix, hr, hne]

theorem reReplaceAux_cons_none (re : List Atom) (repl : List Char) (pos : Nat) (c : Char)
    (cs : List Char) (h : matchHere re pos (c :: cs) = none) :
    reReplaceAux re repl pos 0 (c :: cs) = c :: reReplaceAux re repl (pos + 1) 0 cs := by
  simp only [reReplaceAux, h]

theorem reReplaceAux_cons_skip (re : List Atom) (repl : List Char) (pos k : Nat) (c : Char)
    (cs : List Char) :
    reReplaceAux re repl pos (k + 1) (c :: cs) = reReplaceAux re repl (pos + 1) k cs := by
  simp only [reReplaceAux]

theorem reReplaceAux_cons_some (re : List Atom) (repl : List Char) (pos : Nat) (c : Char)
    (cs : List Char) (ps : List (List Char)) (h : matchHere re pos (c :: cs) = some ps)
    (hps : ps.flatten ≠ []) :
    reReplaceAux re repl pos 0 (c :: cs) =
      repl ++ reReplaceAux re repl (pos + 1) (ps.flatten.length - 1) cs := by
  have he : ps.flatten.isEmpty = false := by
    cases hf : ps.flatten with
    | nil => exact absurd hf hps
    | cons x xs => rfl
  simp only [reReplaceAux, h, he, Bool.false_eq_true, if_false]

/-- A text without `<` in front of `rest` is copied when the pattern opens with a
literal `<…`. -/
theorem reReplaceAux_prefix_lit (l : List Char) (re : List Atom) (repl rest : List Char) :
    ∀ (pre : List Char) (pos : Nat), noLt pre →
      reReplaceAux (.lit ('<' :: l) :: re) repl pos 0 (pre ++ rest) =
        pre ++ reReplaceAux (.lit ('<' :: l) :: re) repl (pos + pre.length) 0 rest := by
  intro pre
  induction pre with
  | nil => intro pos _; simp
  | cons c cs ih =>
    intro pos h
    have hc : c ≠ '<' := h c (List.mem_cons_self _ _)
    rw [List.cons_append, reReplaceAux_cons_none _ _ _ _ _
      (matchHere_lit_head_ne l re pos c _ hc), ih (pos + 1) (noLt_tail h), List.length_cons,
      show pos + 1 + cs.length = pos + (cs.length + 1) from by omega, List.cons_append]

/-- A text without `<` in front of `rest` is copied when the pattern is `c0?<…` and its
literal does not fit the front of `rest`. -/
theorem reReplaceAux_prefix_opt (c0 : Char) (l : List Char) (re : List Atom)
    (repl rest : List Char) (hrest : hasPrefix rest ('<' :: l) = false) :
    ∀ (pre : List Char) (pos : Nat), noLt pre →
      reReplaceAux (.opt c0 :: .lit ('<' :: l) :: re) repl pos 0 (pre ++ rest) =
        pre ++ reReplaceAux (.opt c0 :: .lit ('<' :: l) :: re) repl (pos + pre.length) 0 rest := by
  intro pre
  induction pre with
  | nil => intro pos _; simp
  | cons c cs ih =>
    intro pos h
    have hc : c ≠ '<' := h c (List.mem_cons_self _ _)
    have hnext : hasPrefix (cs ++ rest) ('<' :: l) = false := by
      cases cs with
      | nil => simpa using hrest
      | cons x xs =>
        exact hasPrefix_head_ne x _ l ((noLt_tail h) x (List.mem_cons_self _ _))
    rw [List.cons_append, reReplaceAux_cons_none _ _ _ _ _
      (matchHere_opt_lit_head_ne c0 l re pos c _ hc hnext), ih (pos + 1) (noLt_tail h),
      List.length_cons, show pos + 1 + cs.length = pos + (cs.length + 1) from by omega,
      List.cons_append]

/-- The characters of a match that are still to be dropped are dropped. -/
theorem reReplaceAux_skip (re : List Atom) (repl t : List Char) :
    ∀ (m : List Char) (pos : Nat),
      reReplaceAux re repl pos m.length (m ++ t) = reReplaceAux re repl (pos + m.length) 0 t := by
  intro m
  induction m with
  | nil => intro pos; simp
  | cons c cs ih =>
    intro pos
    rw [List.length_cons, List.cons_append, reReplaceAux_cons_skip, ih (pos + 1),
      show pos + 1 + cs.length = pos + (cs.length + 1) from by omega]

/-- A match at the front of a text is replaced, and the replacement goes on behind it. -/
theorem reReplaceAux_match (re : List Atom) (repl : List Char) (pos : Nat) (c : Char)
    (m t : List Char) (ps : List (List Char))
    (hm : matchHere re pos (c :: (m ++ t)) = some ps) (hps : ps.flatten = c :: m) :
    reReplaceAux re repl pos 0 (c :: (m ++ t)) =
      repl ++ reReplaceAux re repl (pos + 1 + m.length) 0 t := by
  rw [reReplaceAux_cons_some re repl pos c _ ps hm (by rw [hps]; simp), hps, List.length_cons,
    Nat.add_sub_cancel, reReplaceAux_skip]

/-- A marker that no pattern with a literal `<…` in front fits leaves the text as it
is: nothing matches before it, at it or behind it. -/
theorem reReplaceAux_inert_lit (l : List Char) (re : List Atom) (repl pre r : List Char)
    (pos : Nat) (hpre : noLt pre) (hr : noLt r)
    (h0 : ∀ p, matchHere (.lit ('<' :: l) :: re) p ('<' :: r) = none) :
    reReplaceAux (.lit ('<' :: l) :: re) repl pos 0 (pre ++ '<' :: r) = pre ++ '<' :: r := by
  rw [reReplaceAux_prefix_lit l re repl _ pre pos hpre, reReplaceAux_cons_none _ _ _ _ _ (h0 _),
    reReplaceAux_noMatch _ _ (fun p s hs => matchHere_lit_noLt l re p s hs) r _ hr]

theorem reReplaceAux_inert_opt (c0 : Char) (l : List Char) (re : List Atom)
    (repl pre r : List Char) (pos : Nat) (hc0 : c0 ≠ '<') (hpre : noLt pre) (hr : noLt r)
    (hfit : hasPrefix r l = false) :
    reReplaceAux (.opt c0 :: .lit ('<' :: l) :: re) repl pos 0 (pre ++ '<' :: r) =
      pre ++ '<' :: r := by
  have hrest : hasPrefix ('<' :: r) ('<' :: l) = false := by simp [hasPrefix, hfit]
  rw [reReplaceAux_prefix_opt c0 l re repl _ hrest pre pos hpre,
    reReplaceAux_cons_none _ _ _ _ _ (matchHere_opt_lit_at c0 l re _ r hc0 hfit),
    reReplaceAux_noMatch _ _ (fun p s hs => matchHere_opt_lit_noLt c0 l re p s hs) r _ hr]

theorem replaceAllAux_front (l new rest : List Char) : ∀ (pre : List Char), noLt pre →
    replaceAllAux ('<' :: l) new 0 (pre ++ rest) = pre ++ replaceAllAux ('<' :: l) new 0 rest := by
  intro pre
  induction pre with
  | nil => intro _; rfl
  | cons c cs ih =>
    intro h
    have hc : c ≠ '<' := h c (List.mem_cons_self _ _)
    simp only [List.cons_append, replaceAllAux, hasPrefix_head_ne c _ l hc, Bool.false_eq_true,
      if_false]
    exact congrArg _ (ih (noLt_tail h))

theorem replaceAll_inert (l new pre r : List Char) (hpre : noLt pre) (hr : noLt r)
    (hfit : hasPrefix r l = false) :
    replaceAll (pre ++ '<' :: r) ('<' :: l) new = pre ++ '<' :: r := by
  have h0 : replaceAllAux ('<' :: l) new 0 ('<' :: r) = '<' :: r := by
    simp only [replaceAllAux, hasPrefix, beq_self_eq_true, Bool.true_and, hfit,
      Bool.false_eq_true, if_false, replaceAllAux_noLt l new r hr]
  simp only [replaceAll, List.isEmpty_cons, Bool.false_eq_true, if_false]
  rw [replaceAllAux_front l new _ pre hpre, h0]

/-- The first step of `ProcessContent` leaves a text with a single `<` as it is when
neither a wrapper block nor one of the three literal markers starts there. -/
theorem stripDetails_inert (pre r : List Char) (hpre : noLt pre) (hr : noLt r)
    (h0 : ∀ p, matchHere detailsRe p ('<' :: r) = none)
    (h1 : hasPrefix r "/thinking>".data = false) (h2 : hasPrefix r "Full>".data = false)
    (h3 : hasPrefix r "/Full>".data = false) :
    stripDetails (pre ++ '<' :: r) = pre ++ '<' :: r := by
  have hd : reReplaceAll detailsRe (pre ++ '<' :: r) [] = pre ++ '<' :: r :=
    reReplaceAux_inert_lit _ _ [] pre r 0 hpre hr h0
  have e1 : replaceAll (pre ++ '<' :: r) "</thinking>".data [] = pre ++ '<' :: r :=
    replaceAll_inert "/thinking>".data [] pre r hpre hr h1
  have e2 : replaceAll (pre ++ '<' :: r) "<Full>".data [] = pre ++ '<' :: r :=
    replaceAll_inert "Full>".data [] pre r hpre hr h2
  have e3 : replaceAll (pre ++ '<' :: r) "</Full>".data [] = pre ++ '<' :: r :=
    replaceAll_inert "/Full>".data [] pre r hpre hr h3
  unfold stripDetails
  simp only [hd, e1, e2, e3]

theorem openMarker_append (pre a t : List Char) :
    pre ++ openMarker a ++ t = pre ++ '<' :: openRest a t := by
  simp [openMarker, openRest]

theorem openRest_eq (a t : List Char) :
    openRest a t = 'd' :: 'e' :: 't' :: 'a' :: 'i' :: 'l' :: 's' :: (a ++ '>' :: t) := rfl

theorem noLt_openRest (a t : List Char) (ha : plainAttrs a) (ht : noLt t) :
    noLt (openRest a t) := by
  intro c hc
  rw [openRest_eq] at hc
  simp only [List.mem_cons, List.mem_append] at hc
  rcases hc with rfl | rfl | rfl | rfl | rfl | rfl | rfl | h | rfl | h
  all_goals first | decide | exact (ha c h).1 | exact ht c h

/-- A lazy repetition fails over a run where its continuation fails, when it fails
behind the run. -/
theorem starLazy_fail (p : Char → Bool) (k : Cont) (s : List Char) :
    ∀ (a : List Char) (pos : Nat), (∀ q c cs, c ∈ a → k q (c :: cs) = none) →
      starLazy p k (pos + a.length) s = none → starLazy p k pos (a ++ s) = none := by
  intro a
  induction a with
  | nil => intro pos _ h; simpa using h
  | cons c cs ih =>
    intro pos hk hend
    have hrec : starLazy p k (pos + 1) (cs ++ s) = none := by
      apply ih (pos + 1) (fun q x xs hx => hk q x xs (List.mem_cons_of_mem _ hx))
      rw [show pos + 1 + cs.length = pos + (c :: cs).length from by
        rw [List.length_cons]; omega]
      exact hend
    rw [List.cons_append]
    simp only [starLazy, hk pos c _ (List.mem_cons_self _ _), hrec]
    split <;> rfl

/-- A greedy repetition takes a whole run of its class when its continuation succeeds
behind the run, at a character outside the class. -/
theorem starGreedy_run (p : Char → Bool) (k : Cont) (x : Char) (t : List Char)
    (ps0 : List (List Char)) (hx : p x = false) :
    ∀ (a : List Char) (pos : Nat), (∀ c ∈ a, p c = true) →
      k (pos + a.length) (x :: t) = some ps0 →
      starGreedy p k pos (a ++ x :: t) = some (a :: ps0) := by
  intro a
  induction a with
  | nil =>
    intro pos _ hk
    simp only [List.length_nil, Nat.add_zero] at hk
    simp [starGreedy, hx, hk]
  | cons c cs ih =>
    intro pos hp hk
    have hrec : starGreedy p k (pos + 1) (cs ++ x :: t) = some (cs :: ps0) := by
      apply ih (pos + 1) (fun y hy => hp y (List.mem_cons_of_mem _ hy))
      rw [show pos + 1 + cs.length = pos + (c :: cs).length from by
        rw [List.length_cons]; omega]
      exact hk
    rw [List.cons_append]
    simp only [starGreedy, hp c (List.mem_cons_self _ _), if_true, hrec]

theorem detailsRe_open_none (a t : List Char) (ha : plainAttrs a) (ht : noLt t) (p : Nat) :
    matchHere detailsRe p ('<' :: openRest a t) = none := by
  have hinner : ∀ q, matchHere [.lazy anyChar, .lit "</details>".data] q t = none :=
    fun q => matchHere_lazy_lit_noLt anyChar "/details>".data [] t q ht
  have hend : ∀ q, starLazy notGt
      (matchHere [.lit ">".data, .lazy anyChar, .lit "</details>".data]) q ('>' :: t) = none := by
    intro q
    have h1 : matchHere [.lit ">".data, .lazy anyChar, .lit "</details>".data] q ('>' :: t) =
        none := by
      rw [matchHere_cons]
      simp [matchAtom, hasPrefix, hinner]
    simp [starLazy, h1, notGt]
  have hk : ∀ q c cs, c ∈ a →
      matchHere [.lit ">".data, .lazy anyChar, .lit "</details>".data] q (c :: cs) = none := by
    intro q c cs hc
    have hne : c ≠ '>' := (ha c hc).2
    rw [matchHere_cons]
    simp [matchAtom, hasPrefix, hne]
  have hlazy := starLazy_fail notGt _ ('>' :: t) a (p + 8) hk (hend _)
  rw [openRest_eq]
  show matchHere (.lit "<details".data :: .lazy notGt ::
    [.lit ">".data, .lazy anyChar, .lit "</details>".data]) p _ = none
  rw [matchHere_cons, matchHere_cons]
  simp [matchAtom, hasPrefix, hlazy]

theorem stripDetails_open (pre a t : List Char) (hpre : noLt pre) (ha : plainAttrs a)
    (ht : noLt t) :
    stripDetails (pre ++ '<' :: openRest a t) = pre ++ '<' :: openRest a t :=
  stripDetails_inert pre _ hpre (noLt_openRest a t ha ht)
    (fun p => detailsRe_open_none a t ha ht p) rfl rfl rfl

theorem matchHere_detailsOpenRe_open (a t : List Char) (ha : plainAttrs a) (p : Nat) :
    matchHere detailsOpenRe p ('<' :: openRest a t) =
      some ["<details".data, a, ">".data, takeNewline t] := by
  have hk : ∀ q, matchHere [.lit ">".data, .opt '\n'] q ('>' :: t) =
      some [">".data, takeNewline t] := by
    intro q
    rw [matchHere_cons, matchHere_cons]
    cases t with
    | nil => simp [matchAtom, hasPrefix, matchHere, takeNewline]
    | cons c cs =>
      by_cases hc : c = '\n'
      · subst hc
        simp [matchAtom, hasPrefix, matchHere, takeNewline]
      · simp [matchAtom, hasPrefix, matchHere, takeNewline, hc]
  have hrun := starGreedy_run notGt (matchHere [.lit ">".data, .opt '\n']) '>' t _ (by decide)
    a (p + 8) (fun c hc => by simpa [notGt] using (ha c hc).2) (hk _)
  rw [openRest_eq]
  show matchHere (.lit "<details".data :: .star notGt :: [.lit ">".data, .opt '\n']) p _ = _
  rw [matchHere_cons, matchHere_cons]
  simp [matchAtom, hasPrefix, hrun]

/-- The opening marker, with the line feed behind it, is the one match of
`<details[^>]*>\n?` in a text that has no other `<`. -/
theorem reReplaceAll_detailsOpenRe_open (repl pre a t : List Char) (hpre : noLt pre)
    (ha : plainAttrs a) (ht : noLt t) :
    reReplaceAll detailsOpenRe (pre ++ '<' :: openRest a t) repl =
      pre ++ repl ++ dropNewline t := by
  have hsplit : openRest a t =
      ("details".data ++ a ++ ">".data ++ takeNewline t) ++ dropNewline t := by
    simp [openRest, takeNewline_append_dropNewline]
  have hm := matchHere_detailsOpenRe_open a t ha (0 + pre.length)
  rw [hsplit] at hm
  unfold reReplaceAll
  rw [show detailsOpenRe = .lit ('<' :: "details".data) :: [.star notGt, .lit ">".data, .opt '\n']
    from rfl] at hm ⊢
  rw [reReplaceAux_prefix_lit _ _ repl _ pre 0 hpre, hsplit,
    reReplaceAux_match _ repl _ '<' _ _ _ hm (by simp),
    reReplaceAux_noMatch _ _ (fun p s hs => matchHere_lit_noLt _ _ p s hs) _ _
      (noLt_dropNewline t ht), List.append_assoc]

theorem noLt_reasoningRest_append (t : List Char) (ht : noLt t) :
    noLt (reasoningRest ++ t) :=
  noLt_append (by unfold noLt; decide) ht

theorem rewritePure_open (pre a t : List Char) (hpre : noLt pre) (ha : plainAttrs a)
    (ht : noLt t) :
    rewritePure "thinking" (pre ++ '<' :: openRest a t) =
      pre ++ '<' :: (reasoningRest ++ dropNewline t) := by
  have hr := noLt_openRest a t ha ht
  have h1 : reReplaceAll summaryRe (pre ++ '<' :: openRest a t) [] =
      pre ++ '<' :: openRest a t :=
    reReplaceAux_inert_opt '\n' "summary>".data _ [] pre _ 0 (by decide) hpre hr rfl
  have h2 : reReplaceAll detailsOpenRe (pre ++ '<' :: openRest a t)
      "<details type=\"reasoning\">".data =
      pre ++ '<' :: (reasoningRest ++ dropNewline t) := by
    rw [reReplaceAll_detailsOpenRe_open _ pre a t hpre ha ht]
    simp [reasoningRest]
  have h3 : reReplaceAll detailsCloseRe (pre ++ '<' :: (reasoningRest ++ dropNewline t))
      "\n\n></details>".data = pre ++ '<' :: (reasoningRest ++ dropNewline t) :=
    reReplaceAux_inert_opt '\n' "/details>".data _ _ pre _ 0 (by decide) hpre
      (noLt_reasoningRest_append _ (noLt_dropNewline t ht)) rfl
  unfold rewritePure
  simp only [if_true, h1, h2, h3]

theorem matchHere_detailsCleanRe_opener (t : List Char) (p : Nat) :
    matchHere detailsCleanRe p ('<' :: (reasoningRest ++ t)) =
      some ["<".data, [], "details".data, " type=\"reasoning\"".data, ">".data] := by
  have hrun := starGreedy_run notGt (matchHere [.lit ">".data]) '>' t [">".data, ] (by decide)
    " type=\"reasoning\"".data (p + 8) (by decide) (by simp [matchHere, matchAtom, hasPrefix])
  show matchHere (.lit "<".data :: .opt '/' :: .lit "details".data :: .star notGt ::
    [.lit ">".data]) p ('<' :: ("details".data ++ (" type=\"reasoning\"".data ++ '>' :: t))) = _
  rw [matchHere_cons, matchHere_cons, matchHere_cons, matchHere_cons]
  simp [matchAtom, hasPrefix]
  rw [show p + 1 + 7 = p + 8 from by omega]
  exact hrun

/-- The final clean-up of mode `pure` removes the opener of a reasoning block. -/
theorem detailsClean_open (pre t : List Char) (hpre : noLt pre) (ht : noLt t) :
    reReplaceAll detailsCleanRe (pre ++ '<' :: (reasoningRest ++ t)) [] = pre ++ t := by
  have hm := matchHere_detailsCleanRe_opener t (0 + pre.length)
  unfold reReplaceAll
  rw [show detailsCleanRe = .lit ('<' :: []) ::
    [.opt '/', .lit "details".data, .star notGt, .lit ">".data] from rfl] at hm ⊢
  rw [reReplaceAux_prefix_lit _ _ [] _ pre 0 hpre,
    reReplaceAux_match _ [] _ '<' _ _ _ hm (by simp [reasoningRest]),
    reReplaceAux_noMatch _ _ (fun p s hs => matchHere_lit_noLt _ _ p s hs) _ _ ht,
    List.nil_append]

/-- Mode `pure` on a thinking fragment with an opening marker: a text without `<`, the
marker `<details…>` with attributes free of `<` and `>`, and a text without `<` come out
as the two texts, the second without one leading line feed: the marker is rewritten to
the opener of a reasoning block and removed by the final clean-up. -/
theorem ExtractContent_pure_open (cp : ContentProcessor) (pre a t : List Char) (done : Bool)
    (hpre : noLt pre) (ha : plainAttrs a) (ht : noLt t) :
    (ExtractContent "pure" cp
      (event "thinking" (String.mk (pre ++ openMarker a ++ t)) "" done)).1 =
      String.mk (pre ++ dropNewline t) := by
  rw [openMarker_append]
  have hne : String.mk (pre ++ '<' :: openRest a t) ≠ "" := by
    intro h
    have := congrArg String.data h
    simp at this
  have hp : processPure cp.historyPhase "thinking"
      (stripDetails (pre ++ '<' :: openRest a t)) = pre ++ dropNewline t := by
    rw [stripDetails_open pre a t hpre ha ht]
    unfold processPure
    simp only [rewritePure_open pre a t hpre ha ht,
      show ("thinking" = "answer") = False from eq_false (by decide), if_false]
    exact detailsClean_open pre _ hpre (noLt_dropNewline t ht)
  simp [ExtractContent, ProcessContent, event, hne, hp]

theorem closeRest_eq (u : List Char) :
    closeRest u = '/' :: 'd' :: 'e' :: 't' :: 'a' :: 'i' :: 'l' :: 's' :: '>' :: u := rfl

theorem noLt_closeRest (u : List Char) (hu : noLt u) : noLt (closeRest u) :=
  noLt_append (by unfold noLt; decide) hu

theorem stripDetails_close (x u : List Char) (hx : noLt x) (hu : noLt u) :
    stripDetails (x ++ '<' :: closeRest u) = x ++ '<' :: closeRest u :=
  stripDetails_inert x _ hx (noLt_closeRest u hu)
    (fun p => by rw [closeRest_eq]; simp [matchHere, matchAtom, detailsRe, hasPrefix])
    rfl rfl rfl

/-- No match of a pattern `c0?<…` starts at a character that is neither `<` nor `c0`. -/
theorem matchHere_opt_lit_other (c0 : Char) (l : List Char) (re : List Atom) (pos : Nat)
    (c : Char) (cs : List Char) (h : c ≠ '<') (h0 : c ≠ c0) :
    matchHere (.opt c0 :: .lit ('<' :: l) :: re) pos (c :: cs) = none := by
  have hne : (c == c0) = false := by simpa using h0
  rw [matchHere_cons, matchHere_cons]
  simp [matchAtom, hasPrefix_head_ne c cs l h, hne]

/-- A text without `<` that does not end with `c0` is copied when the pattern is
`c0?<…`, whatever stands behind the text. -/
theorem reReplaceAux_prefix_opt_end (c0 : Char) (l : List Char) (re : List Atom)
    (repl rest : List Char) :
    ∀ (pre : List Char) (pos : Nat), noLt pre → (∀ p, pre ≠ p ++ [c0]) →
      reReplaceAux (.opt c0 :: .lit ('<' :: l) :: re) repl pos 0 (pre ++ rest) =
        pre ++ reReplaceAux (.opt c0 :: .lit ('<' :: l) :: re) repl (pos + pre.length) 0 rest := by
  intro pre
  induction pre with
  | nil => intro pos _ _; simp
  | cons c cs ih =>
    intro pos h hend
    have hc : c ≠ '<' := h c (List.mem_cons_self _ _)
    have hend' : ∀ p, cs ≠ p ++ [c0] := by
      intro p hp
      exact hend (c :: p) (by rw [hp]; rfl)
    have hnone : matchHere (.opt c0 :: .lit ('<' :: l) :: re) pos (c :: (cs ++ rest)) = none := by
      cases cs with
      | nil =>
        have h0 : c ≠ c0 := by
          intro hcc
          exact hend [] (by rw [hcc]; rfl)
        exact matchHere_opt_lit_other c0 l re pos c _ hc h0
      | cons x xs =>
        exact matchHere_opt_lit_head_ne c0 l re pos c _ hc
          (hasPrefix_head_ne x _ l ((noLt_tail h) x (List.mem_cons_self _ _)))
    rw [List.cons_append, reReplaceAux_cons_none _ _ _ _ _ hnone,
      ih (pos + 1) (noLt_tail h) hend', List.length_cons,
      show pos + 1 + cs.length = pos + (cs.length + 1) from by omega, List.cons_append]

/-- The closing marker behind a text that does not end with a line feed is the one
match of `\n?</details>` in a text that has no other `<`. -/
theorem reReplaceAll_detailsCloseRe_close (repl pre u : List Char) (hpre : noLt pre)
    (hend : noNewlineEnd pre) (hu : noLt u) :
    reReplaceAll detailsCloseRe (pre ++ '<' :: closeRest u) repl = pre ++ repl ++ u := by
  have hm : matchHere detailsCloseRe (0 + pre.length) ('<' :: ("/details>".data ++ u)) =
      some [[], "</details>".data] := by
    simp [matchHere, matchAtom, detailsCloseRe, hasPrefix]
  unfold reReplaceAll
  rw [show detailsCloseRe = [.opt '\n', .lit ('<' :: "/details>".data)] from rfl] at hm ⊢
  rw [reReplaceAux_prefix_opt_end '\n' _ _ repl _ pre 0 hpre hend,
    show closeRest u = "/details>".data ++ u from rfl,
    reReplaceAux_match _ repl _ '<' _ _ _ hm (by simp),
    reReplaceAux_noMatch _ _ (fun p s hs => matchHere_opt_lit_noLt _ _ _ p s hs) _ _ hu,
    List.append_assoc]

/-- The closing marker with a line feed in front is the one match of `\n?</details>`
in a text that has no other `<`: the line feed belongs to the match. -/
theorem reReplaceAll_detailsCloseRe_close_nl (repl pre u : List Char) (hpre : noLt pre)
    (hu : noLt u) :
    reReplaceAll detailsCloseRe (pre ++ '\n' :: '<' :: closeRest u) repl = pre ++ repl ++ u := by
  have hm : matchHere detailsCloseRe (0 + pre.length)
      ('\n' :: ("</details>".data ++ u)) = some [['\n'], "</details>".data] := by
    simp [matchHere, matchAtom, detailsCloseRe, hasPrefix]
  unfold reReplaceAll
  rw [show detailsCloseRe = [.opt '\n', .lit ('<' :: "/details>".data)] from rfl] at hm ⊢
  rw [reReplaceAux_prefix_opt '\n' "/details>".data [] repl ('\n' :: '<' :: closeRest u) rfl
      pre 0 hpre,
    show '\n' :: '<' :: closeRest u = '\n' :: ("</details>".data ++ u) from rfl,
    reReplaceAux_match _ repl _ '\n' _ _ _ hm (by simp),
    reReplaceAux_noMatch _ _ (fun p s hs => matchHere_opt_lit_noLt _ _ _ p s hs) _ _ hu,
    List.append_assoc]

theorem matchHere_detailsCleanRe_close (u : List Char) (p : Nat) :
    matchHere detailsCleanRe p ('<' :: closeRest u) =
      some ["<".data, "/".data, "details".data, [], ">".data] := by
  rw [closeRest_eq]
  simp [matchHere, matchAtom, detailsCleanRe, hasPrefix, starGreedy, notGt]

/-- The final clean-up of mode `pure` removes a closing marker. -/
theorem detailsClean_close (y u : List Char) (hy : noLt y) (hu : noLt u) :
    reReplaceAll detailsCleanRe (y ++ '<' :: closeRest u) [] = y ++ u := by
  have hm : matchHere detailsCleanRe (0 + y.length) ('<' :: ("/details>".data ++ u)) =
      some ["<".data, "/".data, "details".data, [], ">".data] :=
    matchHere_detailsCleanRe_close u (0 + y.length)
  unfold reReplaceAll
  rw [show detailsCleanRe = .lit ('<' :: []) ::
    [.opt '/', .lit "details".data, .star notGt, .lit ">".data] from rfl] at hm ⊢
  rw [reReplaceAux_prefix_lit _ _ [] _ y 0 hy,
    show closeRest u = "/details>".data ++ u from rfl,
    reReplaceAux_match _ [] _ '<' _ _ _ hm (by simp),
    reReplaceAux_noMatch _ _ (fun p s hs => matchHere_lit_noLt _ _ p s hs) _ _ hu,
    List.nil_append]

/-- Mode `pure` on a thinking text with a closing marker as its only `<`: when the
rewriting of the closing marker turns the text into `y`, the rewritten marker and `u`,
what comes out is `y`, `"\n\n>"` and `u`. -/
theorem processPure_close (hp : String) (x y u : List Char) (hx : noLt x) (hy : noLt y)
    (hu : noLt u)
    (hclose : reReplaceAll detailsCloseRe (x ++ '<' :: closeRest u) "\n\n></details>".data =
      y ++ "\n\n></details>".data ++ u) :
    processPure hp "thinking" (stripDetails (x ++ '<' :: closeRest u)) =
      y ++ "\n\n>".data ++ u := by
  have hr := noLt_closeRest u hu
  have h1 : reReplaceAll summaryRe (x ++ '<' :: closeRest u) [] = x ++ '<' :: closeRest u :=
    reReplaceAux_inert_opt '\n' "summary>".data _ [] x _ 0 (by decide) hx hr rfl
  have h2 : reReplaceAll detailsOpenRe (x ++ '<' :: closeRest u)
      "<details type=\"reasoning\">".data = x ++ '<' :: closeRest u :=
    reReplaceAux_inert_lit "details".data _ _ x _ 0 hx hr
      (fun p => by rw [closeRest_eq]; simp [matchHere, matchAtom, hasPrefix])
  have hshape : y ++ "\n\n></details>".data ++ u =
      (y ++ "\n\n>".data) ++ '<' :: closeRest u := by
    simp [closeRest]
  have hy' : noLt (y ++ "\n\n>".data) := noLt_append hy (by unfold noLt; decide)
  rw [stripDetails_close x u hx hu]
  unfold processPure rewritePure
  simp only [if_true, h1, h2, hclose,
    show ("thinking" = "answer") = False from eq_false (by decide), if_false]
  rw [hshape]
  exact detailsClean_close _ u hy' hu

theorem String_mk_cons_ne_empty (x : List Char) (c : Char) (r : List Char) :
    String.mk (x ++ c :: r) ≠ "" := by
  intro h
  have := congrArg String.data h
  simp at this

/-- Mode `pure` hands a non-empty thinking fragment to its branch of `ProcessContent`. -/
theorem ExtractContent_pure_thinking (cp : ContentProcessor) (f : String) (done : Bool)
    (hf : f ≠ "") :
    (ExtractContent "pure" cp (event "thinking" f "" done)).1 =
      String.mk (processPure cp.historyPhase "thinking" (stripDetails f.data)) := by
  simp [ExtractContent, ProcessContent, event, hf]

/-- Mode `pure` on a thinking fragment with a closing marker: a text without `<` that
does not end with a line feed, the marker `</details>` and a text without `<` come out
as the first text, `"\n\n>"` and the second text. -/
theorem ExtractContent_pure_close (cp : ContentProcessor) (pre u : List Char) (done : Bool)
    (hpre : noLt pre) (hend : noNewlineEnd pre) (hu : noLt u) :
    (ExtractContent "pure" cp
      (event "thinking" (String.mk (pre ++ "</details>".data ++ u)) "" done)).1 =
      String.mk (pre ++ "\n\n>".data ++ u) := by
  have hshape : pre ++ "</details>".data ++ u = pre ++ '<' :: closeRest u := by
    simp [closeRest]
  rw [hshape, ExtractContent_pure_thinking cp _ done (String_mk_cons_ne_empty _ _ _)]
  exact congrArg String.mk (processPure_close cp.historyPhase pre pre u hpre hpre hu
    (reReplaceAll_detailsCloseRe_close _ pre u hpre hend hu))

/-- Mode `pure` on a thinking fragment with a closing marker on a line of its own: a
text without `<`, a line feed, the marker `</details>` and a text without `<` come out
as the first text, `"\n\n>"` and the second text. -/
theorem ExtractContent_pure_close_nl (cp : ContentProcessor) (pre u : List Char) (done : Bool)
    (hpre : noLt pre) (hu : noLt u) :
    (ExtractContent "pure" cp
      (event "thinking" (String.mk (pre ++ "\n</details>".data ++ u)) "" done)).1 =
      String.mk (pre ++ "\n\n>".data ++ u) := by
  have hshape : pre ++ "\n</details>".data ++ u = (pre ++ ['\n']) ++ '<' :: closeRest u := by
    simp [closeRest]
  rw [hshape, ExtractContent_pure_thinking cp _ done (String_mk_cons_ne_empty _ _ _)]
  have hx : noLt (pre ++ ['\n']) := noLt_append hpre (by unfold noLt; decide)
  have hclose : reReplaceAll detailsCloseRe ((pre ++ ['\n']) ++ '<' :: closeRest u)
      "\n\n></details>".data = pre ++ "\n\n></details>".data ++ u := by
    rw [show (pre ++ ['\n']) ++ '<' :: closeRest u = pre ++ '\n' :: '<' :: closeRest u from by
      simp]
    exact reReplaceAll_detailsCloseRe_close_nl _ pre u hpre hu
  exact congrArg String.mk
    (processPure_close cp.historyPhase (pre ++ ['\n']) pre u hx hpre hu hclose)

/-! ## C1: the scenario under mode `think` -/

/-- C1, as stated, fails: under mode `think` the content frames of the scenario are not
`"<think>\n\nhi"`, `"\n\n</think>"`, `"\n\nworld"`. -/
theorem scenario_claimed_content_refuted :
    contentFrames (handleStreamResponseWithIDs scenarioDecode "think" scenarioLines) ≠
      ["<think>\n\nhi", "\n\n</think>", "\n\nworld"] := by
  decide

/-- C1, amended: under mode `think`, three lines that decode to the events of the
scenario produce the role frame, the content frames `"<think>\n\n hi"` (the blank
behind the block-quote marker stays), `"\n\n</think>"` and `"world"` (an answer without
summary marker is forwarded as it is), the finish frame and the sentinel. -/
theorem scenario_think_frames (decode : String → Option UpstreamData) (l1 l2 l3 : String)
    (h1 : parseLine decode l1 = some (event "thinking" "<details>\n> hi" "" false))
    (h2 : parseLine decode l2 = some (event "thinking" "</details>" "" false))
    (h3 : parseLine decode l3 = some (event "answer" "world" "" true)) :
    handleStreamResponseWithIDs decode "think" [l1, l2, l3] =
      [firstChunk, contentChunk "<think>\n\n hi", contentChunk "\n\n</think>",
       contentChunk "world", endChunk, Frame.sentinel] := by
  unfold handleStreamResponseWithIDs
  simp only [streamLoop, h1, h2, h3]
  decide

/-- The amended scenario of C1 at a concrete decoder. -/
theorem scenario_think_frames_witness :
    handleStreamResponseWithIDs scenarioDecode "think" scenarioLines =
      [firstChunk, contentChunk "<think>\n\n hi", contentChunk "\n\n</think>",
       contentChunk "world", endChunk, Frame.sentinel] :=
  scenario_think_frames scenarioDecode "data: 1" "data: 2" "data: 3"
    (by decide) (by decide) (by decide)

/-! ## C2: streaming against non-streaming on an error event -/

/-- C2, at the failing input: for the lines `data: e` (an event with a top-level error
object) and `data: a` (the answer `late` with the completion flag) the streaming path
stops at the error and streams no content, while the non-streaming path, which has no
error test, reads on and answers with the content `late`. -/
theorem stream_nonstream_differ_on_error :
    streamedContent
        (handleStreamResponseWithIDs errorThenAnswerDecode "think" ["data: e", "data: a"]) = "" ∧
      (handleNonStreamResponseWithIDs errorThenAnswerDecode "think"
        ["data: e", "data: a"]).Content = "late" := by
  decide

/-! ## C3: the end of a stream -/

/-- C3, at the failing input: when the upstream body ends after the single event
`Hello` without completion flag, the stream is the role frame and one content frame;
no finish frame and no sentinel is written. -/
theorem stream_truncated_has_no_finish :
    handleStreamResponseWithIDs truncatedDecode "think" ["data: h"] =
      [firstChunk, contentChunk "Hello"] := by
  decide

/-! ## C4: the splice at the start of the answer -/

/-- C4, as stated, fails: under mode `think` and after a thinking event, the answer
fragment `<details>...</details>Hello` does not come out as `"\n\n</think>\n\nHello"`. -/
theorem details_block_answer_not_spliced :
    (ExtractContent "think" NewContentProcessor
      (event "answer" "<details>...</details>Hello" "" false)).1 ≠ "\n\n</think>\n\nHello" := by
  decide

/-- C4, amended: under mode `think` and after a thinking event, an answer fragment with
a summary marker whose rewritten text has text `after`, not all white space, behind its
first `</think>` comes out as the single string `"\n\n</think>\n\n"` followed by `after`
without its leading line feeds; the fragment `<details>...</details>Hello`, which has
no summary marker, comes out unchanged. -/
theorem think_answer_splice (cp : ContentProcessor) (d : UpstreamData) (after : List Char)
    (hprev : cp.historyPhase = "thinking") (hphase : d.Data.Phase = "answer")
    (hsum : containsSub (fragment d).data "summary>".data = true)
    (htail : answerTail "think" (fragment d) = some after)
    (hne : trimSpace after ≠ []) :
    (ExtractContent "think" cp d).1 =
        String.mk ("\n\n</think>\n\n".data ++ trimLeftNewlines after) ∧
      (ExtractContent "think" cp (event "answer" "<details>...</details>Hello" "" false)).1 =
        "<details>...</details>Hello" := by
  refine ⟨ExtractContent_think_splice cp d after hprev hphase hsum htail hne, ?_⟩
  have h : (ExtractContent "think" { historyPhase := "thinking" }
      (event "answer" "<details>...</details>Hello" "" false)).1 =
      "<details>...</details>Hello" := by decide
  obtain ⟨hp⟩ := cp
  simp only at hprev
  subst hprev
  exact h

/-- The splice of C4 at the fragment `<summary>s</summary></details>Hello`. -/
theorem think_answer_splice_witness :
    (ExtractContent "think" NewContentProcessor
      (event "answer" "<summary>s</summary></details>Hello" "" false)).1 =
        String.mk ("\n\n</think>\n\n".data ++ trimLeftNewlines "Hello".data) ∧
      (ExtractContent "think" NewContentProcessor
        (event "answer" "<details>...</details>Hello" "" false)).1 =
        "<details>...</details>Hello" :=
  think_answer_splice NewContentProcessor
    (event "answer" "<summary>s</summary></details>Hello" "" false) "Hello".data
    (by decide) (by decide) (by decide) (by decide) (by decide)

/-! ## C5: a second answer fragment with trailing text -/

/-- C5, as stated, fails: under mode `think`, of two consecutive answer events with the
fragments `</details>Hello` and `</details>World` the second does not come out empty. -/
theorem second_answer_not_suppressed :
    (ExtractContent "think"
      (ExtractContent "think" NewContentProcessor
        (event "answer" "</details>Hello" "" false)).2
      (event "answer" "</details>World" "" false)).1 ≠ "" := by
  decide

/-- C5, amended: in each of the modes `think`, `pure` and `raw`, when an answer event
with a non-empty fragment is followed by an answer event whose fragment has a summary
marker and whose rewritten text has text `after`, not all white space, behind its
first closing marker, `ExtractContent` returns the empty string for the second event. -/
theorem second_answer_suppressed (mode : String) (cp : ContentProcessor)
    (d1 d2 : UpstreamData) (after : List Char)
    (h1 : d1.Data.Phase = "answer") (hfrag1 : fragment d1 ≠ "")
    (h2 : d2.Data.Phase = "answer")
    (hsum : containsSub (fragment d2).data "summary>".data = true)
    (htail : answerTail mode (fragment d2) = some after)
    (hne : trimSpace after ≠ []) :
    (ExtractContent mode (ExtractContent mode cp d1).2 d2).1 = "" := by
  have hstate : (ExtractContent mode cp d1).2 = { historyPhase := "answer" } := by
    rw [ExtractContent_state]
    simp [hfrag1, h1]
  rw [hstate]
  exact ExtractContent_answer_suppressed mode d2 after h2 hsum htail hne

/-- The suppression of C5 under mode `raw`, at the fragments `Hello` and
`<summary>s</summary></details>World`. -/
theorem second_answer_suppressed_witness :
    (ExtractContent "raw"
      (ExtractContent "raw" NewContentProcessor (event "answer" "Hello" "" false)).2
      (event "answer" "<summary>s</summary></details>World" "" false)).1 = "" :=
  second_answer_suppressed "raw" NewContentProcessor (event "answer" "Hello" "" false)
    (event "answer" "<summary>s</summary></details>World" "" false) "World".data
    (by decide) (by decide) (by decide) (by decide) (by decide) (by decide)

/-! ## C6: the phase memory on an empty fragment -/

/-- C6, as stated, fails: a processor whose last phase is `answer` still has the last
phase `answer` after a thinking event with an empty fragment. -/
theorem empty_fragment_keeps_lastPhase :
    (ExtractContent "think" { historyPhase := "answer" }
      (event "thinking" "" "" false)).2.historyPhase ≠ "thinking" := by
  decide

/-- C6, amended: for an event of phase `thinking` or `answer`, `ExtractContent` leaves
the processor as it is when the fragment is empty, and records the phase of the event
as `historyPhase` when the fragment is not empty. -/
theorem extract_lastPhase (mode : String) (cp : ContentProcessor) (d : UpstreamData)
    (hphase : d.Data.Phase = "thinking" ∨ d.Data.Phase = "answer") :
    (fragment d = "" → (ExtractContent mode cp d).2 = cp) ∧
      (fragment d ≠ "" → (ExtractContent mode cp d).2.historyPhase = d.Data.Phase) := by
  rw [ExtractContent_state]
  constructor
  · intro h
    simp [h]
  · intro h
    have hp : d.Data.Phase = "answer" ∨ d.Data.Phase = "thinking" := hphase.symm
    simp [h, hp]

/-- Both halves of the amended C6 at concrete events. -/
theorem extract_lastPhase_witness :
    (fragment (event "thinking" "" "" false) = "" →
        (ExtractContent "think" { historyPhase := "answer" } (event "thinking" "" "" false)).2 =
          { historyPhase := "answer" }) ∧
      (fragment (event "thinking" "" "" false) ≠ "" →
        (ExtractContent "think" { historyPhase := "answer" }
          (event "thinking" "" "" false)).2.historyPhase = "thinking") :=
  extract_lastPhase "think" { historyPhase := "answer" } (event "thinking" "" "" false)
    (Or.inl (by decide))

/-! ## C7: the error object that is surfaced -/

/-- C7: the error object of the streaming loop is the first one present among the
top-level error, the error of `data` and the error of `data.data`, in this order; a
top-level error wins over the others; and when the error test holds, an error object
is selected. -/
theorem errObj_first_present (d : UpstreamData) :
    errObj d = (d.Error <|> d.Data.Error <|> d.Data.Inner.bind (fun inner => inner.Error)) ∧
      (∀ e, d.Error = some e → errObj d = some e) ∧
      (hasError d = true → (errObj d).isSome = true) := by
  obtain ⟨ty, ⟨delta, edit, phase, done, derr, inner⟩, err⟩ := d
  refine ⟨?_, ?_, ?_⟩
  · cases err <;> cases derr <;> cases inner <;> simp [errObj]
  · intro e he
    simp only at he
    subst he
    cases derr <;> cases inner <;> simp [errObj]
  · intro h
    cases err <;> cases derr <;> cases inner <;> simp_all [errObj, hasError]

/-- C7 at an event with both a top-level error and an error inside `data`. -/
theorem errObj_first_present_witness :
    errObj { event "answer" "x" "" false with
        Error := some { Detail := "top", Code := 1 },
        Data := { (event "answer" "x" "" false).Data with
          Error := some { Detail := "nested", Code := 2 } } } =
        some { Detail := "top", Code := 1 } ∧
      (errObj { event "answer" "x" "" false with
        Error := some { Detail := "top", Code := 1 },
        Data := { (event "answer" "x" "" false).Data with
          Error := some { Detail := "nested", Code := 2 } } }).isSome = true :=
  ⟨(errObj_first_present _).2.1 { Detail := "top", Code := 1 } rfl,
    (errObj_first_present _).2.2 (by decide)⟩

/-! ## C8: the role frame -/

/-- C8: the stream begins with the role frame (role `assistant`, no content, no finish
reason), and no frame behind it announces a role; so the one role frame precedes every
content frame. -/
theorem stream_role_frame_first_and_only (decode : String → Option UpstreamData)
    (mode : String) (lines : List String) :
    ∃ rest, handleStreamResponseWithIDs decode mode lines = firstChunk :: rest ∧
      firstChunk = Frame.chunk { Role := "assistant", Content := "" } "" ∧
      firstChunk.isRole = true ∧ firstChunk.isContent = false ∧
      ∀ f ∈ rest, f.isRole = false :=
  ⟨streamLoop decode mode NewContentProcessor lines, rfl, rfl, by decide, by decide,
    streamLoop_no_role decode mode lines NewContentProcessor⟩

/-! ## C9: an error event ends the stream -/

/-- C9: when the first line that decodes to an event with an error object comes before
any completion signal, the stream is the frames written for the lines before it,
which hold no finish frame and no sentinel, followed by exactly the finish frame and
the sentinel: the error event gets no content frame and the lines behind it no frame. -/
theorem stream_error_ends_stream (decode : String → Option UpstreamData) (mode : String)
    (pre post : List String) (line : String) (d : UpstreamData)
    (hpre : ∀ l ∈ pre, ∀ e, parseLine decode l = some e →
      hasError e = false ∧ isDone e = false)
    (hline : parseLine decode line = some d) (herr : hasError d = true) :
    handleStreamResponseWithIDs decode mode (pre ++ line :: post) =
        handleStreamResponseWithIDs decode mode pre ++ [endChunk, Frame.sentinel] ∧
      (∀ f ∈ handleStreamResponseWithIDs decode mode pre,
        f.isFinish = false ∧ f.isSentinel = false) ∧
      endChunk.isFinish = true ∧ endChunk.isContent = false := by
  refine ⟨?_, ?_, by decide, by decide⟩
  · unfold handleStreamResponseWithIDs
    rw [streamLoop_error decode mode line d post hline herr pre NewContentProcessor hpre]
    rfl
  · intro f hf
    unfold handleStreamResponseWithIDs at hf
    rcases List.mem_cons.mp hf with rfl | h
    · exact ⟨by decide, by decide⟩
    · exact streamLoop_plain decode mode pre NewContentProcessor hpre f h

/-- C9 at a stream of an answer fragment, an error event that carries a fragment of its
own, and a further answer fragment. -/
theorem stream_error_ends_stream_witness :
    handleStreamResponseWithIDs
        (decodeTable [("a", event "answer" "Hello" "" false),
          ("e", { event "answer" "lost" "" false with
            Error := some { Detail := "boom", Code := 500 } }),
          ("b", event "answer" "after" "" true)])
        "think" (["data: a"] ++ "data: e" :: ["data: b"]) =
      [firstChunk, contentChunk "Hello", endChunk, Frame.sentinel] :=
  (stream_error_ends_stream _ "think" ["data: a"] ["data: b"] "data: e"
    { event "answer" "lost" "" false with Error := some { Detail := "boom", Code := 500 } }
    (by decide) (by decide) (by decide)).1

/-! ## C10: events of another phase -/

/-- C10: an event whose phase is neither `thinking` nor `answer` and whose fragment has
no summary marker comes out of `ExtractContent` as its raw fragment: `delta_content`
when that is not empty, `edit_content` otherwise. -/
theorem extract_other_phase_unchanged (mode : String) (cp : ContentProcessor)
    (d : UpstreamData) (h1 : d.Data.Phase ≠ "thinking") (h2 : d.Data.Phase ≠ "answer")
    (_hsum : containsSub (fragment d).data "summary>".data = false) :
    (ExtractContent mode cp d).1 =
      (if d.Data.DeltaContent ≠ "" then d.Data.DeltaContent else d.Data.EditContent) := by
  rw [ExtractContent_other_phase mode cp d h1 h2]
  unfold fragment
  by_cases h : d.Data.DeltaContent = "" <;> simp [h]

/-- C10 at an event of phase `other` under mode `raw`. -/
theorem extract_other_phase_unchanged_witness :
    (ExtractContent "raw" NewContentProcessor (event "other" "" "<details>x" false)).1 =
      (if (event "other" "" "<details>x" false).Data.DeltaContent ≠ "" then
        (event "other" "" "<details>x" false).Data.DeltaContent
      else (event "other" "" "<details>x" false).Data.EditContent) :=
  extract_other_phase_unchanged "raw" NewContentProcessor (event "other" "" "<details>x" false)
    (by decide) (by decide) (by decide)

/-! ## C11: the thought-only terminal frame of mode `raw` -/

/-- C11, as stated, fails: under mode `raw` the answer fragment `</details>`, which has
no summary block and no `duration` attribute, does not come out as
`"\n\n</div></details>"`. -/
theorem raw_bare_close_not_rewritten :
    (ExtractContent "raw" NewContentProcessor (event "answer" "</details>" "" false)).1 ≠
      "\n\n</div></details>" := by
  decide

/-- C11, amended: under mode `raw`, for an answer fragment with a summary marker whose
rewritten text has nothing but white space behind its first closing marker, with
`before` the rewritten text up to that marker: when `before` has a summary block, the
output is `"\n\n</div>"`, the first such block and `"</details>\n\n"`; else, when
`before` has an attribute `duration="N"`, the output is
`"\n\n</div><summary>Thought for N seconds</summary></details>\n\n"`; else the output
is `"\n\n</div></details>"`. -/
theorem raw_terminal_frame (cp : ContentProcessor) (d : UpstreamData)
    (before after : List Char) (hphase : d.Data.Phase = "answer")
    (hsum : containsSub (fragment d).data "summary>".data = true)
    (hsplit : rawAnswerSplit (fragment d) = some (before, after))
    (hblank : trimSpace after = []) :
    (reFindString summaryBlockRe before ≠ [] →
        (ExtractContent "raw" cp d).1 =
          String.mk ("\n\n</div>".data ++ reFindString summaryBlockRe before ++
            "</details>\n\n".data)) ∧
      (reFindString summaryBlockRe before = [] → ∀ n, findDuration before = some n →
        (ExtractContent "raw" cp d).1 =
          String.mk ("\n\n</div><summary>Thought for ".data ++ n ++
            " seconds</summary></details>\n\n".data)) ∧
      (reFindString summaryBlockRe before = [] → findDuration before = none →
        (ExtractContent "raw" cp d).1 = "\n\n</div></details>") := by
  have h := ExtractContent_raw_terminal cp d before after hphase hsum hsplit hblank
  refine ⟨?_, ?_, ?_⟩
  · intro hs
    rw [h, if_pos hs]
  · intro hs n hn
    rw [h, if_neg (not_not.mpr hs), hn]
  · intro hs hn
    rw [h, if_neg (not_not.mpr hs), hn]

/-- The three cases of the amended C11 at concrete fragments: a summary block, a
`duration` attribute without summary block, and neither. -/
theorem raw_terminal_frame_witness :
    (ExtractContent "raw" NewContentProcessor
        (event "answer" "<summary>Thought for 2 seconds</summary>\n> x\n</details>\n" ""
          false)).1 =
        "\n\n</div><summary>Thought for 2 seconds</summary></details>\n\n" ∧
      (ExtractContent "raw" NewContentProcessor
        (event "answer" "duration=\"12\" summary>\n</details>\n" "" false)).1 =
        "\n\n</div><summary>Thought for 12 seconds</summary></details>\n\n" ∧
      (ExtractContent "raw" NewContentProcessor
        (event "answer" "summary>\n</details>" "" false)).1 = "\n\n</div></details>" :=
  ⟨(raw_terminal_frame NewContentProcessor
      (event "answer" "<summary>Thought for 2 seconds</summary>\n> x\n</details>\n" "" false)
      "<summary>Thought for 2 seconds</summary>\n> x\n\n</div></details>".data "\n".data
      (by decide) (by decide) (by decide) (by decide)).1 (by decide),
    (raw_terminal_frame NewContentProcessor
      (event "answer" "duration=\"12\" summary>\n</details>\n" "" false)
      "duration=\"12\" summary>\n\n</div></details>".data "\n".data
      (by decide) (by decide) (by decide) (by decide)).2.1 (by decide) "12".data (by decide),
    (raw_terminal_frame NewContentProcessor
      (event "answer" "summary>\n</details>" "" false)
      "summary>\n\n</div></details>".data []
      (by decide) (by decide) (by decide) (by decide)).2.2 (by decide) (by decide)⟩

/-! ## C12: mode `pure` on a thinking fragment -/

/-- C12, as stated, fails: under mode `pure` the output for the thinking fragment
`<details>\n> hi` does not start with the opener of a reasoning block. -/
theorem pure_thinking_no_opener :
    hasPrefix
      (ExtractContent "pure" NewContentProcessor
        (event "thinking" "<details>\n> hi" "" false)).1.data
      "<details type=\"reasoning\">".data = false := by
  decide

/-- C12, amended: under mode `pure` the output for a non-empty thinking fragment is its
rewritten text after the final clean-up of `details` tags, which removes the opener and
the closing marker that the rewriting has written. So a thinking fragment made of a
text `pre`, an opening marker `<details…>` with any attributes `a` and a text `t`
comes out as `pre` and `t` without one leading line feed; and a thinking fragment made
of `pre`, a closing marker `</details>`, with or without a line feed in front, and a
text `u` comes out as `pre`, `"\n\n>"` and `u`. Here `pre`, `t` and `u` have no `<`,
and `a` has neither `<` nor `>`. -/
theorem pure_thinking_markers_removed (cp : ContentProcessor) (pre a t u : List Char)
    (done : Bool) (hpre : noLt pre) (ha : plainAttrs a) (ht : noLt t) (hu : noLt u) :
    (∀ f : String, f ≠ "" →
        (ExtractContent "pure" cp (event "thinking" f "" done)).1 =
          String.mk (reReplaceAll detailsCleanRe
            (rewritePure "thinking" (stripDetails f.data)) [])) ∧
      (ExtractContent "pure" cp
        (event "thinking" (String.mk (pre ++ openMarker a ++ t)) "" done)).1 =
        String.mk (pre ++ dropNewline t) ∧
      (ExtractContent "pure" cp
        (event "thinking" (String.mk (pre ++ "\n</details>".data ++ u)) "" done)).1 =
        String.mk (pre ++ "\n\n>".data ++ u) ∧
      (noNewlineEnd pre →
        (ExtractContent "pure" cp
          (event "thinking" (String.mk (pre ++ "</details>".data ++ u)) "" done)).1 =
          String.mk (pre ++ "\n\n>".data ++ u)) := by
  refine ⟨?_, ExtractContent_pure_open cp pre a t done hpre ha ht,
    ExtractContent_pure_close_nl cp pre u done hpre hu,
    fun hend => ExtractContent_pure_close cp pre u done hpre hend hu⟩
  intro f hf
  rw [ExtractContent_pure_thinking cp f done hf]
  unfold processPure
  simp only [show ("thinking" = "answer") = False from eq_false (by decide), if_false]

/-- The amended C12 at an opening marker with attributes, `<details type="reasoning"
done="false">` followed by `\n> hi`, and at the closing marker behind the text `> hi`,
with and without a line feed in front. -/
theorem pure_thinking_markers_removed_witness :
    (ExtractContent "pure" NewContentProcessor
        (event "thinking" "<details type=\"reasoning\" done=\"false\">\n> hi" "" false)).1 =
        "> hi" ∧
      (ExtractContent "pure" NewContentProcessor
        (event "thinking" "> hi\n</details>" "" false)).1 = "> hi\n\n>" ∧
      (ExtractContent "pure" NewContentProcessor
        (event "thinking" "> hi</details>" "" false)).1 = "> hi\n\n>" :=
  ⟨(pure_thinking_markers_removed NewContentProcessor [] " type=\"reasoning\" done=\"false\"".data
      "\n> hi".data [] false (by unfold noLt; decide) (by unfold plainAttrs; decide)
      (by unfold noLt; decide) (by unfold noLt; decide)).2.1,
    (pure_thinking_markers_removed NewContentProcessor "> hi".data [] [] [] false
      (by unfold noLt; decide) (by unfold plainAttrs; decide)
      (by unfold noLt; decide) (by unfold noLt; decide)).2.2.1,
    (pure_thinking_markers_removed NewContentProcessor "> hi".data [] [] [] false
      (by unfold noLt; decide) (by unfold plainAttrs; decide)
      (by unfold noLt; decide) (by unfold noLt; decide)).2.2.2
      (by
        intro p h
        have := congrArg List.getLast? h
        simp at this)⟩

/-- The opening marker of a real first thinking event, with attributes and a summary
block behind it, is removed as well. -/
theorem pure_thinking_summary_opener :
    (ExtractContent "pure" NewContentProcessor
      (event "thinking"
        "<details type=\"reasoning\" done=\"false\">\n<summary>Thinking…</summary>\n> hi" ""
        false)).1 = "> hi" := by
  decide

/-- Without the condition on `<` the clean-up can leave a marker: when removing one
marker joins the text around it to another, that one comes out. -/
theorem pure_thinking_joined_marker :
    (ExtractContent "pure" NewContentProcessor
      (event "thinking" "<det<details>ails>" "" false)).1 = "<details>" := by
  decide

/-- The splice of mode `pure` strips the line feeds in front of the answer, not its
blanks: after a thinking event, the answer fragment `<summary>s</summary></details> Hello`
comes out as `"\n\n Hello"`. -/
theorem pure_answer_splice_keeps_blank :
    (ProcessContent "pure" { historyPhase := "thinking" }
      "<summary>s</summary></details> Hello" "answer").1 = "\n\n Hello" := by
  decide

/-! ## C13: answer fragments without summary marker -/

/-- C13: in every mode and from every processor state, `ProcessContent` returns a
non-empty answer fragment without the substring `summary>` unchanged, and records the
phase `answer`. -/
theorem process_answer_without_summary_unchanged (mode : String) (cp : ContentProcessor)
    (content : String) (_hne : content ≠ "")
    (hsum : containsSub content.data "summary>".data = false) :
    ProcessContent mode cp content "answer" = (content, { historyPhase := "answer" }) := by
  unfold ProcessContent
  simp [hsum]

/-- C13 at a fragment with a complete wrapper block and a closing marker, under mode
`raw` and after an answer event. -/
theorem process_answer_without_summary_unchanged_witness :
    ProcessContent "raw" { historyPhase := "answer" } "<details>x</details>Hello</details>y"
        "answer" =
      ("<details>x</details>Hello</details>y", { historyPhase := "answer" }) :=
  process_answer_without_summary_unchanged "raw" { historyPhase := "answer" }
    "<details>x</details>Hello</details>y" (by decide) (by decide)


end Zai2Api
